import Mathlib

/-!
Shallow embedding of the banklytik statement-normalization pipeline
(`statements/cleaning_utils.py`, `statements/date_validator.py`,
`statements/table_merger.py`, `statements/textract_utils.py`,
`statements/processing_router.py`) together with theorems settling the
frozen claims about the natural-language specification.

Strings are modelled as `List Char`; Python's `\d`, `[A-Za-z]` and `\s`
character classes are modelled over the ASCII range actually produced by
the OCR front end.  Machine floats that only ever flow through sign
tests and `abs` are modelled as rationals.  External collaborators
(pandas `to_datetime`, the current wall-clock date) are explicit
parameters of the embedded functions.
-/

namespace Banklytik

/-! ## Character classes (Python `\d`, `[A-Za-z]`, `\s` on ASCII input) -/

def isDig (c : Char) : Bool := c.isDigit

def isAlph (c : Char) : Bool :=
  ('a' ≤ c && c ≤ 'z') || ('A' ≤ c && c ≤ 'Z')

def isWs (c : Char) : Bool :=
  c = ' ' || c = '\t' || c = '\n' || c = '\x0d' || Char.ofNat 11 = c || Char.ofNat 12 = c

def digVal (c : Char) : Nat := c.toNat - '0'.toNat

def digitsVal (cs : List Char) : Nat :=
  cs.foldl (fun a c => a * 10 + digVal c) 0

def lowerChar (c : Char) : Char :=
  if 'A' ≤ c && c ≤ 'Z' then Char.ofNat (c.toNat + 32) else c

/-- Python `str.strip()` on both ends. -/
def pyStrip (l : List Char) : List Char :=
  ((l.dropWhile isWs).reverse.dropWhile isWs).reverse

/-- Python `str.lower()` (ASCII). -/
def pyLower (l : List Char) : List Char := l.map lowerChar

/-! ## Calendar arithmetic (`calendar.monthrange`, `datetime` ordering) -/

def isLeap (y : Nat) : Bool :=
  (y % 4 = 0 && y % 100 ≠ 0) || y % 400 = 0

/-- Length of month `m` of year `y` (the second component of Python's
`calendar.monthrange`). -/
def monthLength (y m : Nat) : Nat :=
  if m = 2 then (if isLeap y then 29 else 28)
  else if m = 4 || m = 6 || m = 9 || m = 11 then 30
  else 31

def daysBeforeMonth (y m : Nat) : Nat :=
  (List.range (m - 1)).foldl (fun a i => a + monthLength y (i + 1)) 0

/-- Proleptic-Gregorian day number (rata die) of a calendar date. -/
def rataDie (y m d : Nat) : Nat :=
  365 * (y - 1) + (y - 1) / 4 - (y - 1) / 100 + (y - 1) / 400
    + daysBeforeMonth y m + d

/-- A naive `datetime.datetime` value. -/
structure PyDateTime where
  year : Nat
  month : Nat
  day : Nat
  hour : Nat := 0
  minute : Nat := 0
  second : Nat := 0
deriving Repr, DecidableEq

/-- Whether `datetime.datetime(y, m, d, hh, mm, ss)` would construct
without raising `ValueError`. -/
def dtValid (t : PyDateTime) : Bool :=
  1 ≤ t.year && t.year ≤ 9999 && 1 ≤ t.month && t.month ≤ 12 &&
  1 ≤ t.day && t.day ≤ monthLength t.year t.month &&
  t.hour ≤ 23 && t.minute ≤ 59 && t.second ≤ 59

/-- Total order on datetimes as seconds on the proleptic time line;
`datetime` comparison and `timedelta` arithmetic are exact in it. -/
def PyDateTime.scalar (t : PyDateTime) : Int :=
  (rataDie t.year t.month t.day : Int) * 86400
    + t.hour * 3600 + t.minute * 60 + t.second

/-! ## Month-name tables (as produced/consumed by `strftime`/`strptime`) -/

def monthAbbrevs : List String :=
  ["Jan", "Feb", "Mar", "Apr", "May", "Jun",
   "Jul", "Aug", "Sep", "Oct", "Nov", "Dec"]

def monthFulls : List String :=
  ["January", "February", "March", "April", "May", "June",
   "July", "August", "September", "October", "November", "December"]

/-- `d.strftime('%b')` for month number `m` (1-based). -/
def strftimeB (m : Nat) : List Char :=
  ((monthAbbrevs.getD (m - 1) "").data)

/-- Case-insensitive `strptime %b` month-abbreviation lookup on a 3-char
candidate; returns the 1-based month number. -/
def parseMonthAbbrev (cs : List Char) : Option Nat :=
  (List.range 12).findSome? fun i =>
    if pyLower cs = pyLower (monthAbbrevs.get! i).data then some (i + 1) else none

/-- Case-insensitive full-month-name lookup (`strptime %B`). -/
def parseMonthFull (cs : List Char) : Option Nat :=
  (List.range 12).findSome? fun i =>
    if pyLower cs = pyLower (monthFulls.get! i).data then some (i + 1) else none

/-! ## `datetime.strptime` (CPython `_strptime.TimeRE` compiled regexes)

Each directive is modelled by the alternatives of the regex CPython
compiles for it, in the regex's alternation order; whitespace in a
format becomes `\s+`; the full input must be consumed
("unconverted data remains" otherwise). -/

inductive FmtTok where
  | dd    -- %d : (3[01]|[12]\d|0[1-9]|[1-9])
  | mm    -- %m : (1[0-2]|0[1-9]|[1-9])
  | yyyy  -- %Y : \d{4}
  | yy    -- %y : \d{2}, 2000+v if v ≤ 68 else 1900+v
  | hh    -- %H : (2[0-3]|[0-1]\d|\d)
  | mi    -- %M : ([0-5]\d|\d)
  | sec   -- %S : ([0-5]\d|\d)
  | mabbr -- %b : month abbreviations, case-insensitive
  | mfull -- %B : full month names, case-insensitive
  | ws    -- \s+ (greedy, backtracking)
  | lit (c : Char)
deriving Repr, DecidableEq

/-- A capture update on the accumulating `strptime` result. -/
def Upd : Type := PyDateTime → PyDateTime

def setDayU (v : Nat) : Upd := fun t => { t with day := v }
def setMonthU (v : Nat) : Upd := fun t => { t with month := v }
def setYearU (v : Nat) : Upd := fun t => { t with year := v }
def setHourU (v : Nat) : Upd := fun t => { t with hour := v }
def setMinU (v : Nat) : Upd := fun t => { t with minute := v }
def setSecU (v : Nat) : Upd := fun t => { t with second := v }
def idU : Upd := fun t => t

/-- The ways one directive can consume a prefix of the input, as
(length consumed, capture update) pairs in regex alternation order. -/
def tokCands : FmtTok → List Char → List (Nat × Upd)
  | .dd, a :: b :: _ =>
    (if a = '3' && (b = '0' || b = '1') then [(2, setDayU (digitsVal [a, b]))] else [])
    ++ (if (a = '1' || a = '2') && isDig b then [(2, setDayU (digitsVal [a, b]))] else [])
    ++ (if a = '0' && isDig b && b ≠ '0' then [(2, setDayU (digitsVal [a, b]))] else [])
    ++ (if isDig a && a ≠ '0' then [(1, setDayU (digVal a))] else [])
  | .dd, [a] => if isDig a && a ≠ '0' then [(1, setDayU (digVal a))] else []
  | .dd, [] => []
  | .mm, a :: b :: _ =>
    (if a = '1' && (b = '0' || b = '1' || b = '2') then [(2, setMonthU (digitsVal [a, b]))] else [])
    ++ (if a = '0' && isDig b && b ≠ '0' then [(2, setMonthU (digitsVal [a, b]))] else [])
    ++ (if isDig a && a ≠ '0' then [(1, setMonthU (digVal a))] else [])
  | .mm, [a] => if isDig a && a ≠ '0' then [(1, setMonthU (digVal a))] else []
  | .mm, [] => []
  | .yyyy, l =>
    if (l.take 4).length = 4 && (l.take 4).all isDig then
      [(4, setYearU (digitsVal (l.take 4)))] else []
  | .yy, l =>
    if (l.take 2).length = 2 && (l.take 2).all isDig then
      [(2, setYearU ((if digitsVal (l.take 2) ≤ 68 then 2000 else 1900) + digitsVal (l.take 2)))]
    else []
  | .hh, a :: b :: _ =>
    (if a = '2' && (b = '0' || b = '1' || b = '2' || b = '3') then [(2, setHourU (digitsVal [a, b]))] else [])
    ++ (if (a = '0' || a = '1') && isDig b then [(2, setHourU (digitsVal [a, b]))] else [])
    ++ (if isDig a then [(1, setHourU (digVal a))] else [])
  | .hh, [a] => if isDig a then [(1, setHourU (digVal a))] else []
  | .hh, [] => []
  | .mi, a :: b :: _ =>
    (if ('0' ≤ a && a ≤ '5') && isDig b then [(2, setMinU (digitsVal [a, b]))] else [])
    ++ (if isDig a then [(1, setMinU (digVal a))] else [])
  | .mi, [a] => if isDig a then [(1, setMinU (digVal a))] else []
  | .mi, [] => []
  | .sec, a :: b :: _ =>
    (if ('0' ≤ a && a ≤ '5') && isDig b then [(2, setSecU (digitsVal [a, b]))] else [])
    ++ (if isDig a then [(1, setSecU (digVal a))] else [])
  | .sec, [a] => if isDig a then [(1, setSecU (digVal a))] else []
  | .sec, [] => []
  | .mabbr, l =>
    match parseMonthAbbrev (l.take 3) with
    | some m => [(3, setMonthU m)]
    | none => []
  | .mfull, l =>
    (List.range 12).filterMap fun i =>
      let nm := (monthFulls.get! i).data
      if pyLower (l.take nm.length) = pyLower nm then
        some (nm.length, setMonthU (i + 1))
      else none
  | .ws, l =>
    let r := (l.takeWhile isWs).length
    (List.range r).map fun i => (r - i, idU)
  | .lit c, a :: _ => if a = c then [(1, idU)] else []
  | .lit _, [] => []

/-- Regex matching with backtracking over a token list; the whole input
must be consumed. -/
def matchToks : List FmtTok → List Char → PyDateTime → Option PyDateTime
  | [], l, t => if l.isEmpty then some t else none
  | tk :: tks, l, t =>
    (tokCands tk l).findSome? fun p => matchToks tks (l.drop p.1) (p.2 t)

/-- `datetime.strptime(s, fmt)`: match, then the `datetime` constructor
validates the captured fields (`ValueError` on an impossible date is a
parse failure for callers that catch it). -/
def pyStrptime (fmt : List FmtTok) (s : List Char) : Option PyDateTime :=
  match matchToks fmt s ⟨1900, 1, 1, 0, 0, 0⟩ with
  | some t => if dtValid t then some t else none
  | none => none

/-! ## `parse_date_flexible` (`statements/date_validator.py` lines 14-56) -/

/-- The format list tried by `parse_date_flexible`, in source order. -/
def flexFormats : List (List FmtTok) :=
  [ [.dd, .ws, .mabbr, .ws, .yyyy],                            -- '%d %b %Y'
    [.dd, .ws, .mfull, .ws, .yyyy],                            -- '%d %B %Y'
    [.mabbr, .ws, .dd, .ws, .yyyy],                            -- '%b %d %Y'
    [.mfull, .ws, .dd, .ws, .yyyy],                            -- '%B %d %Y'
    [.dd, .ws, .mm, .ws, .yyyy],                               -- '%d %m %Y'
    [.yyyy, .ws, .mm, .ws, .dd],                               -- '%Y %m %d'
    [.yyyy, .lit '-', .mm, .lit '-', .dd],                     -- '%Y-%m-%d'
    [.dd, .lit '/', .mm, .lit '/', .yyyy],                     -- '%d/%m/%Y'
    [.mm, .lit '/', .dd, .lit '/', .yyyy],                     -- '%m/%d/%Y'
    [.yyyy, .ws, .mabbr, .ws, .dd],                            -- '%Y %b %d'
    [.yyyy, .ws, .mabbr, .ws, .dd, .ws, .hh, .lit ':', .mi],   -- '%Y %b %d %H:%M'
    [.yyyy, .ws, .mabbr, .ws, .dd, .ws, .hh, .lit ':', .mi, .lit ':', .sec] ]

/-- Python `str.strip("'\"")`. -/
def stripQuotes (l : List Char) : List Char :=
  ((l.dropWhile fun c => c = '\'' || c = '"').reverse.dropWhile
    fun c => c = '\'' || c = '"').reverse

/-- The regex `^([A-Za-z]{3,})\s+(\d{4})$` as a group extractor: the
quantifier boundaries are forced because each quantified class is
followed by a disjoint class. -/
def monthYearSplit (l : List Char) : Option (List Char × Nat) :=
  let a := l.takeWhile isAlph
  let r := l.dropWhile isAlph
  let w := r.takeWhile isWs
  let d := r.dropWhile isWs
  if 3 ≤ a.length && 1 ≤ w.length && d.length = 4 && d.all isDig then
    some (a, digitsVal d)
  else none

/-- `parse_date_flexible` from `date_validator.py`: strip, strip quotes,
try the format list, and refuse bare month+year strings. -/
def parse_date_flexible (s : List Char) : Option PyDateTime :=
  if s.isEmpty then none
  else
    let t := stripQuotes (pyStrip s)
    match flexFormats.findSome? (fun f => pyStrptime f t) with
    | some dt => some dt
    | none => if (monthYearSplit t).isSome then none else none

/-! ## `parse_date_str` (`statements/cleaning_utils.py` lines 50-181)

The five hand-written anchored regexes are translated as run-based
parsers: in each of them every bounded quantifier is followed by a
character class disjoint from the quantified one, so the regex matches
exactly when the maximal runs have the required lengths. -/

/-- Digit run at the head of `l`, with the remainder. -/
def digRun (l : List Char) : List Char × List Char :=
  (l.takeWhile isDig, l.dropWhile isDig)

/-- Whitespace run at the head of `l`, with the remainder. -/
def wsRun (l : List Char) : List Char × List Char :=
  (l.takeWhile isWs, l.dropWhile isWs)

/-- `^\s*(\d{4})\s+([A-Za-z]{3})\s+(\d{1,2})\s+(\d{1,2}):(\d{2}):(\d{2})\s*$`
(the OPay "Trans. Time" pattern). -/
def opayDtMatch (s : List Char) : Option (Nat × List Char × Nat × Nat × Nat × Nat) :=
  let r0 := s.dropWhile isWs
  let (y, r1) := digRun r0
  if y.length ≠ 4 then none else
  let (w1, r2) := wsRun r1
  if w1.length = 0 then none else
  let a := r2.takeWhile isAlph
  let r3 := r2.dropWhile isAlph
  if a.length ≠ 3 then none else
  let (w2, r4) := wsRun r3
  if w2.length = 0 then none else
  let (d, r5) := digRun r4
  if d.length = 0 || 2 < d.length then none else
  let (w3, r6) := wsRun r5
  if w3.length = 0 then none else
  let (hh, r7) := digRun r6
  if hh.length = 0 || 2 < hh.length then none else
  match r7 with
  | ':' :: r8 =>
    let (mi, r9) := digRun r8
    if mi.length ≠ 2 then none else
    match r9 with
    | ':' :: r10 =>
      let (se, r11) := digRun r10
      if se.length ≠ 2 then none else
      if (r11.dropWhile isWs).isEmpty then
        some (digitsVal y, a, digitsVal d, digitsVal hh, digitsVal mi, digitsVal se)
      else none
    | _ => none
  | _ => none

/-- `^\s*(\d{1,2})\s+([A-Za-z]{3})\s+(\d{4})\s*$` (the OPay value-date
pattern). -/
def opayDateMatch (s : List Char) : Option (Nat × List Char × Nat) :=
  let r0 := s.dropWhile isWs
  let (d, r1) := digRun r0
  if d.length = 0 || 2 < d.length then none else
  let (w1, r2) := wsRun r1
  if w1.length = 0 then none else
  let a := r2.takeWhile isAlph
  let r3 := r2.dropWhile isAlph
  if a.length ≠ 3 then none else
  let (w2, r4) := wsRun r3
  if w2.length = 0 then none else
  let (y, r5) := digRun r4
  if y.length ≠ 4 then none else
  if (r5.dropWhile isWs).isEmpty then some (digitsVal d, a, digitsVal y) else none

/-- `^\s*(\d{1,2})/(\d{1,2})/(\d{2})\s+(\d{1,2}):(\d{2}):(\d{2})\s*$`
(Kuda full datetime, on the separator-normalized string). -/
def kudaDtMatch (s : List Char) : Option (Nat × Nat × Nat × Nat × Nat × Nat) :=
  let r0 := s.dropWhile isWs
  let (d, r1) := digRun r0
  if d.length = 0 || 2 < d.length then none else
  match r1 with
  | '/' :: r2 =>
    let (mo, r3) := digRun r2
    if mo.length = 0 || 2 < mo.length then none else
    match r3 with
    | '/' :: r4 =>
      let (y2, r5) := digRun r4
      if y2.length ≠ 2 then none else
      let (w1, r6) := wsRun r5
      if w1.length = 0 then none else
      let (hh, r7) := digRun r6
      if hh.length = 0 || 2 < hh.length then none else
      match r7 with
      | ':' :: r8 =>
        let (mi, r9) := digRun r8
        if mi.length ≠ 2 then none else
        match r9 with
        | ':' :: r10 =>
          let (se, r11) := digRun r10
          if se.length ≠ 2 then none else
          if (r11.dropWhile isWs).isEmpty then
            some (digitsVal d, digitsVal mo, digitsVal y2, digitsVal hh, digitsVal mi, digitsVal se)
          else none
        | _ => none
      | _ => none
    | _ => none
  | _ => none

/-- `^\s*(\d{1,2})/(\d{1,2})/(\d{2,4})\s*$` (Kuda date only, on the
separator-normalized string). -/
def kudaDateMatch (s : List Char) : Option (Nat × Nat × Nat) :=
  let r0 := s.dropWhile isWs
  let (d, r1) := digRun r0
  if d.length = 0 || 2 < d.length then none else
  match r1 with
  | '/' :: r2 =>
    let (mo, r3) := digRun r2
    if mo.length = 0 || 2 < mo.length then none else
    match r3 with
    | '/' :: r4 =>
      let (y, r5) := digRun r4
      if y.length < 2 || 4 < y.length then none else
      if (r5.dropWhile isWs).isEmpty then some (digitsVal d, digitsVal mo, digitsVal y)
      else none
    | _ => none
  | _ => none

/-- `^\s*(\d{1,2}):(\d{2}):(\d{2})\s*$` (time-only fallback). -/
def timeOnlyMatch (s : List Char) : Option (Nat × Nat × Nat) :=
  let r0 := s.dropWhile isWs
  let (hh, r1) := digRun r0
  if hh.length = 0 || 2 < hh.length then none else
  match r1 with
  | ':' :: r2 =>
    let (mi, r3) := digRun r2
    if mi.length ≠ 2 then none else
    match r3 with
    | ':' :: r4 =>
      let (se, r5) := digRun r4
      if se.length ≠ 2 then none else
      if (r5.dropWhile isWs).isEmpty then some (digitsVal hh, digitsVal mi, digitsVal se)
      else none
    | _ => none
  | _ => none

/-- The 11 `known_formats` of the manual fallback, in source order. -/
def knownFormats : List (List FmtTok) :=
  [ [.dd, .lit '/', .mm, .lit '/', .yyyy, .ws, .hh, .lit ':', .mi, .lit ':', .sec],
    [.dd, .lit '/', .mm, .lit '/', .yy, .ws, .hh, .lit ':', .mi, .lit ':', .sec],
    [.dd, .lit '/', .mm, .lit '/', .yyyy, .ws, .hh, .lit ':', .mi],
    [.dd, .lit '/', .mm, .lit '/', .yy, .ws, .hh, .lit ':', .mi],
    [.dd, .lit '/', .mm, .lit '/', .yyyy],
    [.dd, .lit '/', .mm, .lit '/', .yy],
    [.yyyy, .lit '-', .mm, .lit '-', .dd, .ws, .hh, .lit ':', .mi, .lit ':', .sec],
    [.yyyy, .lit '-', .mm, .lit '-', .dd],
    [.mabbr, .ws, .dd, .lit ',', .ws, .yyyy],
    [.dd, .ws, .mabbr, .ws, .yyyy],
    [.dd, .ws, .mabbr, .ws, .yyyy, .ws, .hh, .lit ':', .mi, .lit ':', .sec] ]

/-- `re.match(r'^\d{4}-\d{2}-\d{2}', s)`: the ISO-prefix test deciding
`dayfirst` for the pandas fallback. -/
def isoPrefix (s : List Char) : Bool :=
  match s with
  | a :: b :: c :: d :: '-' :: e :: f :: '-' :: g :: h :: _ =>
    isDig a && isDig b && isDig c && isDig d && isDig e && isDig f && isDig g && isDig h
  | _ => false

/-- Manual `strptime` fallback over `known_formats` (step 7). -/
def pdsStep7 (s : List Char) : Option PyDateTime :=
  knownFormats.findSome? fun f => pyStrptime f s

/-- Step 6: bare month+year guard (returns `none` outright), then the
pandas `to_datetime` fallback, then step 7.  `pandasParse` is the
external pandas parser (string, dayfirst flag). -/
def pdsStep6 (pandasParse : List Char → Bool → Option PyDateTime) (s : List Char) :
    Option PyDateTime :=
  if (monthYearSplit s).isSome then none
  else
    match pandasParse s (!isoPrefix s) with
    | some dt => some dt
    | none => pdsStep7 s

/-- Step 5: time-only strings get today's date attached; a failing
`datetime` constructor falls through. -/
def pdsStep5 (today : PyDateTime) (pandasParse : List Char → Bool → Option PyDateTime)
    (s : List Char) : Option PyDateTime :=
  match timeOnlyMatch s with
  | some (hh, mi, se) =>
    let dt : PyDateTime := ⟨today.year, today.month, today.day, hh, mi, se⟩
    if dtValid dt then some dt else pdsStep6 pandasParse s
  | none => pdsStep6 pandasParse s

/-- `parse_date_str` from `cleaning_utils.py`: empty/`nan`/`none`/`nat`
guard, separator normalization, then the prioritized strategy chain
(OPay datetime, OPay date, Kuda datetime, Kuda date, time-only, pandas
with the month+year guard, manual formats). -/
def parse_date_str (today : PyDateTime)
    (pandasParse : List Char → Bool → Option PyDateTime) (sRaw : List Char) :
    Option PyDateTime :=
  let s := pyStrip sRaw
  if s.isEmpty || pyLower s = "nan".data || pyLower s = "none".data || pyLower s = "nat".data
  then none
  else
    let sNorm := s.map fun c => if c = '-' || c = '.' then '/' else c
    let step3 : Option PyDateTime :=
      match kudaDtMatch sNorm with
      | some (d, mo, y2, hh, mi, se) =>
        let dt : PyDateTime := ⟨2000 + y2, mo, d, hh, mi, se⟩
        if dtValid dt then some dt else
          match kudaDateMatch sNorm with
          | some (d', mo', y') =>
            let yf := if y' < 100 then 2000 + y' else y'
            let dt' : PyDateTime := ⟨yf, mo', d', 0, 0, 0⟩
            if dtValid dt' then some dt' else pdsStep5 today pandasParse s
          | none => pdsStep5 today pandasParse s
      | none =>
        match kudaDateMatch sNorm with
        | some (d', mo', y') =>
          let yf := if y' < 100 then 2000 + y' else y'
          let dt' : PyDateTime := ⟨yf, mo', d', 0, 0, 0⟩
          if dtValid dt' then some dt' else pdsStep5 today pandasParse s
        | none => pdsStep5 today pandasParse s
    let step2 : Option PyDateTime :=
      match opayDateMatch s with
      | some (d, mon, y) =>
        match parseMonthAbbrev mon with
        | some m =>
          let dt : PyDateTime := ⟨y, m, d, 0, 0, 0⟩
          if dtValid dt then some dt else step3
        | none => step3
      | none => step3
    match opayDtMatch s with
    | some (y, mon, d, hh, mi, se) =>
      match parseMonthAbbrev mon with
      | some m =>
        let dt : PyDateTime := ⟨y, m, d, hh, mi, se⟩
        if dtValid dt then some dt else step2
      | none => step2
    | none => step2

/-! ## `fix_missing_space_date` (`cleaning_utils.py` lines 26-42)

Each `re.sub` is modelled as a left-to-right scan that, at a match,
emits the consumed characters plus the inserted space and resumes after
the consumed part (lookaheads are not consumed), exactly as `re.sub`
does. -/

/-- Lookahead `(?=\d{2}:\d{2})`. -/
def lookA : List Char → Bool
  | c :: d :: x :: e :: f :: _ => isDig c && isDig d && x = ':' && isDig e && isDig f
  | _ => false

/-- `re.sub(r"(\d{2})(?=\d{2}:\d{2})", r"\1 ", s)`. -/
def subA : List Char → List Char
  | [] => []
  | [a] => [a]
  | a :: b :: rest =>
    if isDig a && isDig b && lookA rest then a :: b :: ' ' :: subA rest
    else a :: subA (b :: rest)

/-- Lookahead `(?=[A-Za-z]{3,})`. -/
def lookB : List Char → Bool
  | x :: y :: z :: _ => isAlph x && isAlph y && isAlph z
  | _ => false

/-- `re.sub(r"(\d{4})(?=[A-Za-z]{3,})", r"\1 ", s)`. -/
def subB : List Char → List Char
  | a :: b :: c :: d :: rest =>
    if isDig a && isDig b && isDig c && isDig d && lookB rest then
      a :: b :: c :: d :: ' ' :: subB rest
    else a :: subB (b :: c :: d :: rest)
  | l => l

/-- Lookahead `(?=\d{2})`. -/
def lookC : List Char → Bool
  | x :: y :: _ => isDig x && isDig y
  | _ => false

/-- `re.sub(r"(\d{2}:\d{2})(?=\d{2})", r"\1 ", s)`. -/
def subC : List Char → List Char
  | a :: b :: c :: d :: e :: rest =>
    if isDig a && isDig b && c = ':' && isDig d && isDig e && lookC rest then
      a :: b :: c :: d :: e :: ' ' :: subC rest
    else a :: subC (b :: c :: d :: e :: rest)
  | l => l

/-- `re.sub(r"\s{2,}", " ", s)`: a maximal whitespace run of length ≥ 2
collapses to a single space.  The run is consumed character by
character: mode `true` is "inside the run, emit nothing until it
ends". -/
def subDGo : Bool → List Char → List Char
  | _, [] => []
  | true, c :: rest => if isWs c then subDGo true rest else c :: subDGo false rest
  | false, [a] => [a]
  | false, a :: b :: rest =>
    if isWs a && isWs b then ' ' :: subDGo true rest
    else a :: subDGo false (b :: rest)

def subD (l : List Char) : List Char := subDGo false l

/-- `fix_missing_space_date` from `cleaning_utils.py`: strip, the four
ordered substitutions, strip. -/
def fix_missing_space_date (s : List Char) : List Char :=
  pyStrip (subD (subC (subB (subA (pyStrip s)))))

/-! ## `DateValidator` (`date_validator.py` lines 59-345) -/

/-- `^\d{4}\s+[A-Za-z]{3}\s+\d{1,2}:\d{2}\s+\d{1,2}$`. -/
def ocrPat1 (s : List Char) : Bool :=
  let (y, r1) := digRun s
  y.length = 4 &&
  (let (w1, r2) := wsRun r1
   w1.length ≠ 0 &&
   (let a := r2.takeWhile isAlph
    let r3 := r2.dropWhile isAlph
    a.length = 3 &&
    (let (w2, r4) := wsRun r3
     w2.length ≠ 0 &&
     (let (h, r5) := digRun r4
      (h.length = 1 || h.length = 2) &&
      (match r5 with
       | ':' :: r6 =>
         let (mi, r7) := digRun r6
         mi.length = 2 &&
         (let (w3, r8) := wsRun r7
          w3.length ≠ 0 &&
          (let (d2, r9) := digRun r8
           (d2.length = 1 || d2.length = 2) && r9.isEmpty))
       | _ => false)))))

/-- `^\d{1,2}:\d{2}\s+\d{1,2}$`. -/
def ocrPat2 (s : List Char) : Bool :=
  let (h, r1) := digRun s
  (h.length = 1 || h.length = 2) &&
  (match r1 with
   | ':' :: r2 =>
     let (mi, r3) := digRun r2
     mi.length = 2 &&
     (let (w, r4) := wsRun r3
      w.length ≠ 0 &&
      (let (d2, r5) := digRun r4
       (d2.length = 1 || d2.length = 2) && r5.isEmpty))
   | _ => false)

/-- Prefix test for the unanchored `[A-Za-z]{3}\s+\d{2}:\d{2}`. -/
def ocrPat3At : List Char → Bool
  | x :: y :: z :: rest =>
    isAlph x && isAlph y && isAlph z &&
    (let (w, r1) := wsRun rest
     w.length ≠ 0 &&
     (match r1 with
      | a :: b :: ':' :: c :: d :: _ => isDig a && isDig b && isDig c && isDig d
      | _ => false))
  | _ => false

/-- `re.search` of `[A-Za-z]{3}\s+\d{2}:\d{2}`. -/
def ocrPat3 : List Char → Bool
  | [] => false
  | a :: rest => ocrPat3At (a :: rest) || ocrPat3 rest

/-- `^\d{4}\s+[A-Za-z]{3,9}\s+\d{1,2}:\d{2}\s+\d{2}$`. -/
def ocrPat4 (s : List Char) : Bool :=
  let (y, r1) := digRun s
  y.length = 4 &&
  (let (w1, r2) := wsRun r1
   w1.length ≠ 0 &&
   (let a := r2.takeWhile isAlph
    let r3 := r2.dropWhile isAlph
    (3 ≤ a.length && a.length ≤ 9) &&
    (let (w2, r4) := wsRun r3
     w2.length ≠ 0 &&
     (let (h, r5) := digRun r4
      (h.length = 1 || h.length = 2) &&
      (match r5 with
       | ':' :: r6 =>
         let (mi, r7) := digRun r6
         mi.length = 2 &&
         (let (w3, r8) := wsRun r7
          w3.length ≠ 0 &&
          (let (d2, r9) := digRun r8
           d2.length = 2 && r9.isEmpty))
       | _ => false)))))

/-- `^[A-Za-z]{3}\s+\d{4}$`. -/
def ocrPat5 (s : List Char) : Bool :=
  let a := s.takeWhile isAlph
  let r1 := s.dropWhile isAlph
  a.length = 3 &&
  (let (w, r2) := wsRun r1
   w.length ≠ 0 &&
   (let (y, r3) := digRun r2
    y.length = 4 && r3.isEmpty))

/-- `DateValidator.is_ocr_error_pattern` (without the mutable pattern
counter, which does not affect the boolean outcome). -/
def is_ocr_error_pattern (s : List Char) : Bool :=
  if s.isEmpty || pyLower s = "nat".data || pyLower s = "none".data then false
  else ocrPat1 s || ocrPat2 s || ocrPat3 s || ocrPat4 s || ocrPat5 s

/-- Optional `(?::(\d{2}))?` seconds group at the head of `r`, with the
remainder after it. -/
def trySec (r : List Char) : Option Nat × List Char :=
  match r with
  | ':' :: c :: d :: r2 =>
    if isDig c && isDig d then (some (digitsVal [c, d]), r2) else (none, r)
  | _ => (none, r)

/-- The minutes-and-seconds part `:(\d{2})(?::(\d{2}))?` at the head of
`r` (after the hour), with the remainder after the whole match. -/
def tryMinSec (r : List Char) : Option (Nat × Option Nat × List Char) :=
  match r with
  | ':' :: a :: b :: r3 =>
    if isDig a && isDig b then
      some (digitsVal [a, b], (trySec r3).1, (trySec r3).2)
    else none
  | _ => none

/-- One `re.findall` step of `(\d{1,2}):(\d{2})(?::(\d{2}))?`: the match
starting at the head of `l` (if any), as (hour, minute, optional second,
remainder after the match).  `\d{1,2}` is greedy, so a 3-digit run at
the head cannot start a match. -/
def tryTime (l : List Char) : Option (Nat × Nat × Option Nat × List Char) :=
  match l with
  | a :: b :: rest =>
    if isDig a then
      if isDig b then
        match tryMinSec rest with
        | some x => some (digitsVal [a, b], x)
        | none => none
      else
        match tryMinSec (b :: rest) with
        | some x => some (digVal a, x)
        | none => none
    else none
  | _ => none

theorem trySec_len {r : List Char} : (trySec r).2.length ≤ r.length := by
  unfold trySec
  split
  · split
    · simp; omega
    · simp
  · simp

theorem tryMinSec_rem_len {r : List Char} {x : Nat × Option Nat × List Char}
    (h : tryMinSec r = some x) : x.2.2.length + 3 ≤ r.length := by
  unfold tryMinSec at h
  split at h
  · split at h
    · rename_i a b r3 _
      have := @trySec_len r3
      cases h
      simpa using by omega
    · exact absurd h (by simp)
  · exact absurd h (by simp)

theorem tryTime_rem_lt {l : List Char} {h : Nat} {x : Nat × Option Nat × List Char}
    (hs : tryTime l = some (h, x)) : x.2.2.length < l.length := by
  unfold tryTime at hs
  split at hs
  · split at hs
    · split at hs
      · split at hs
        · rename_i a b rest _ _ y hy
          cases hs
          have := tryMinSec_rem_len hy
          simp only [List.length_cons]
          omega
        · exact absurd hs (by simp)
      · split at hs
        · rename_i a b rest _ _ y hy
          cases hs
          have := tryMinSec_rem_len hy
          simp only [List.length_cons] at this ⊢
          omega
        · exact absurd hs (by simp)
    · exact absurd hs (by simp)
  · exact absurd hs (by simp)

/-- The `re.findall` scan of `has_impossible_time`, fuelled for
structural recursion: report `true` as soon as a found time has
hour > 23, minute > 59 or second > 59; otherwise continue after the
match (non-overlapping), or one character further if no match starts
here.  Every step consumes at least one character, so fuel
`l.length + 1` never runs out (`impossibleScanF_stable`). -/
def impossibleScanF : Nat → List Char → Bool
  | 0, _ => false
  | fuel + 1, l =>
    match tryTime l with
    | some (hh, mi, so, rem) =>
      if 23 < hh || 59 < mi || 59 < so.getD 0 then true
      else impossibleScanF fuel rem
    | none =>
      match l with
      | [] => false
      | _ :: rest => impossibleScanF fuel rest

def impossibleScan (l : List Char) : Bool := impossibleScanF (l.length + 1) l

/-- The fuel is irrelevant above `l.length`, so `impossibleScan` is the
scan's fixpoint. -/
theorem impossibleScanF_stable : ∀ f1 f2 (l : List Char), l.length < f1 → l.length < f2 →
    impossibleScanF f1 l = impossibleScanF f2 l := by
  intro f1
  induction f1 using Nat.strong_induction_on with
  | _ f1 ih =>
    intro f2 l h1 h2
    match f1, f2 with
    | g1 + 1, g2 + 1 =>
      simp only [impossibleScanF]
      match hs : tryTime l with
      | some (hh, mi, so, rem) =>
        by_cases hb : (23 < hh || 59 < mi || 59 < so.getD 0) = true
        · simp [hb]
        · simp only [Bool.not_eq_true] at hb
          simp only [hb, Bool.false_eq_true, if_false]
          have hlt : rem.length < l.length := tryTime_rem_lt hs
          exact ih g1 (by omega) g2 rem (by omega) (by omega)
      | none =>
        match l with
        | [] => rfl
        | c :: rest =>
          simp only [List.length_cons] at h1 h2
          exact ih g1 (by omega) g2 rest (by omega) (by omega)

/-- `DateValidator.has_impossible_time`. -/
def has_impossible_time (s : List Char) : Bool :=
  if s.isEmpty then false else impossibleScan s

/-- `DateValidator.is_date_too_far_in_future`
(`parsed > now + timedelta(days=365)`). -/
def is_date_too_far_in_future (now parsed : PyDateTime) : Bool :=
  parsed.scalar > now.scalar + 365 * 86400

/-- `DateValidator.is_date_too_far_in_past`
(`parsed < now - timedelta(days=365*50)`). -/
def is_date_too_far_in_past (now parsed : PyDateTime) : Bool :=
  parsed.scalar < now.scalar - 365 * 50 * 86400

inductive WLevel where
  | INFO | WARNING | ERROR
deriving Repr, DecidableEq

inductive Issue where
  | NULL_DATE | OCR_ERROR_PATTERN | IMPOSSIBLE_TIME | UNPARSEABLE
  | DATE_TOO_FAR_FUTURE | DATE_TOO_FAR_PAST
deriving Repr, DecidableEq

structure VResult where
  is_valid : Bool
  is_suspicious : Bool
  issues : List Issue
  warning_level : WLevel
deriving Repr, DecidableEq

/-- `str(raw_date_str).lower() in ('nat', 'none', '')` (with `raw_date_str is None`). -/
def nullishRaw (raw : Option (List Char)) : Bool :=
  match raw with
  | none => true
  | some s => pyLower s = "nat".data || pyLower s = "none".data || s.isEmpty

/-- `DateValidator.validate_date`: the checks in source order, each
overwriting `warning_level` when it fires. -/
def validate_date (now : PyDateTime) (raw : Option (List Char))
    (parsed : Option PyDateTime) : VResult :=
  if nullishRaw raw then ⟨false, false, [.NULL_DATE], .ERROR⟩
  else
    let s := raw.getD []
    let r0 : VResult := ⟨true, false, [], .INFO⟩
    let r1 :=
      if is_ocr_error_pattern s then
        { r0 with is_suspicious := true, issues := r0.issues ++ [.OCR_ERROR_PATTERN],
                  warning_level := .ERROR }
      else r0
    let r2 :=
      if has_impossible_time s then
        { r1 with is_suspicious := true, issues := r1.issues ++ [.IMPOSSIBLE_TIME],
                  warning_level := .ERROR }
      else r1
    let r3 :=
      if parsed.isNone && r2.is_valid then
        { r2 with is_valid := false, issues := r2.issues ++ [.UNPARSEABLE],
                  warning_level := .WARNING }
      else r2
    let r4 :=
      match parsed with
      | some t =>
        let ra :=
          if is_date_too_far_in_future now t then
            { r3 with is_suspicious := true, issues := r3.issues ++ [.DATE_TOO_FAR_FUTURE],
                      warning_level := .WARNING }
          else r3
        if is_date_too_far_in_past now t then
          { ra with is_suspicious := true, issues := ra.issues ++ [.DATE_TOO_FAR_PAST],
                    warning_level := .WARNING }
        else ra
      | none => r3
    if r4.issues.isEmpty then r4 else { r4 with is_suspicious := true }

/-! ## `DateValidator.infer_missing_components` (`date_validator.py`
lines 137-202) -/

inductive Conf where
  | LOW | MEDIUM | HIGH
deriving Repr, DecidableEq

instance {ε α : Type} [DecidableEq ε] [DecidableEq α] : DecidableEq (Except ε α) := fun a b =>
  match a, b with
  | .ok x, .ok y => if h : x = y then .isTrue (by rw [h]) else .isFalse (by simp [h])
  | .error x, .error y => if h : x = y then .isTrue (by rw [h]) else .isFalse (by simp [h])
  | .ok _, .error _ => .isFalse (by simp)
  | .error _, .ok _ => .isFalse (by simp)

instance : Inhabited PyDateTime := ⟨⟨1, 1, 1, 0, 0, 0⟩⟩

/-- Python `f"{n}"` on a non-negative int. -/
def natToChars (n : Nat) : List Char := (Nat.repr n).data

/-- The regex `^(\d{1,2})\s+(\d{4})$` as a group extractor. -/
def dayYearSplit (l : List Char) : Option (Nat × Nat) :=
  let (d, r1) := digRun l
  if d.length = 0 || 2 < d.length then none else
  let (w, r2) := wsRun r1
  if w.length = 0 then none else
  let (y, r3) := digRun r2
  if y.length ≠ 4 then none else
  if r3.isEmpty then some (digitsVal d, digitsVal y) else none

/-- `sorted` on datetimes: a stable sort by the time-line order, which
is the `datetime` total order for the (always field-valid) Python
datetime objects this is applied to. -/
def dtSort (l : List PyDateTime) : List PyDateTime :=
  l.insertionSort fun a b => a.scalar ≤ b.scalar

/-- The source's median-day selection: sort the day numbers, then take
`days[len(days)//2]` if there is more than one, else `days[0]`
(`sorted` is stable; on `Nat` values any stable sort agrees). -/
def medianDay (l : List Nat) : Nat :=
  if 1 < (l.insertionSort (· ≤ ·)).length then
    (l.insertionSort (· ≤ ·)).getD ((l.insertionSort (· ≤ ·)).length / 2) 0
  else (l.insertionSort (· ≤ ·)).getD 0 0

/-- The missing-day branch of `infer_missing_components` ("Mon YYYY"):
median of same-month context days (HIGH), else most recent same-year
day (MEDIUM), both clamped by `min` to `monthrange`, else the neutral
day 15 (LOW).  `Except.error` is `datetime.strptime(month_name[:3],
'%b')` raising `ValueError` on an unrecognized month. -/
def inferMonthYear (s mname : List Char) (year : Nat) (ctx : List PyDateTime) :
    Except Unit (List Char × Conf) :=
  if ctx.isEmpty then .ok (natToChars 15 ++ ' ' :: s, .LOW)
  else if (ctx.filter fun d => d.year = year).isEmpty then
    .ok (natToChars 15 ++ ' ' :: s, .LOW)
  else if ((ctx.filter fun d => d.year = year).filter
      fun d => strftimeB d.month = mname.take 3).isEmpty then
    (parseMonthAbbrev (mname.take 3)).elim (.error ()) fun m =>
      .ok (natToChars (min ((dtSort (ctx.filter fun d => d.year = year)).getLastD default).day
        (monthLength year m)) ++ ' ' :: s, .MEDIUM)
  else
    (parseMonthAbbrev (mname.take 3)).elim (.error ()) fun m =>
      .ok (natToChars (min (medianDay (((ctx.filter fun d => d.year = year).filter
        fun d => strftimeB d.month = mname.take 3).map fun d => d.day))
        (monthLength year m)) ++ ' ' :: s, .HIGH)

/-- The missing-month branch of `infer_missing_components` ("DD YYYY"):
month of the last same-year context entry (MEDIUM) — note: the context
is *not* sorted here and the day is *not* clamped — else the current
calendar month (LOW). -/
def inferDayYear (day year : Nat) (now : PyDateTime) (ctx : List PyDateTime) :
    Except Unit (List Char × Conf) :=
  if ctx.isEmpty then
    .ok (natToChars day ++ ' ' :: strftimeB now.month ++ ' ' :: natToChars year, .LOW)
  else if (ctx.filter fun d => d.year = year).isEmpty then
    .ok (natToChars day ++ ' ' :: strftimeB now.month ++ ' ' :: natToChars year, .LOW)
  else
    .ok (natToChars day ++ ' ' ::
      strftimeB ((ctx.filter fun d => d.year = year).getLastD default).month
      ++ ' ' :: natToChars year, .MEDIUM)

/-- `infer_missing_components(date_str, context_dates)`.  The result is
`Except` because the missing-day branch calls `datetime.strptime` with
no handler.  `now` stands for `datetime.now()`. -/
def infer_missing_components (now : PyDateTime) (date_str : List Char)
    (context : List PyDateTime) : Except Unit (List Char × Conf) :=
  if date_str.isEmpty then .ok (date_str, .LOW)
  else
    match monthYearSplit date_str with
    | some (mname, year) => inferMonthYear date_str mname year context
    | none =>
      match dayYearSplit date_str with
      | some (day, year) => inferDayYear day year now context
      | none => .ok (date_str, .LOW)

/-! ## `clean_amount` and the debit/credit splits
(`cleaning_utils.py` lines 187-196, 292-306, 349-351)

Amounts are modelled as rationals: the operations involved (parsing,
`abs`, sign tests) are sign- and zero-exact in IEEE doubles. -/

/-- The value `num / 10 ^ exp`: the finite decimal a successful
`float()` call denotes.  The pipeline only ever takes signs, `abs` and
zero-tests of these values, all of which IEEE doubles answer exactly,
and all of which depend only on `num`. -/
structure PyFloat where
  num : Int
  exp : Nat
deriving Repr, DecidableEq

/-- The rational value of a decimal (for the record; sign and zeroness
live in `num`). -/
def PyFloat.val (f : PyFloat) : ℚ := (f.num : ℚ) / (10 : ℚ) ^ f.exp

/-- Python `float()` on a string already restricted to `[0-9.\-]`. -/
def pyFloatParse (l : List Char) : Option PyFloat :=
  let neg := l.head? = some '-'
  let l' := if neg then l.tail else l
  let I := l'.takeWhile isDig
  let r := l'.dropWhile isDig
  let mag : PyFloat → PyFloat := fun f => if neg then ⟨-f.num, f.exp⟩ else f
  match r with
  | [] => if I.isEmpty then none else some (mag ⟨digitsVal I, 0⟩)
  | '.' :: F =>
    if F.all isDig && (!I.isEmpty || !F.isEmpty) then
      some (mag ⟨digitsVal I * 10 ^ F.length + digitsVal F, F.length⟩)
    else none
  | _ => none

/-- `clean_amount`: the `₦`/comma replaces and the strip are subsumed by
the final `re.sub(r"[^0-9.\-]", "", s)` character filter; a failing
`float()` yields `0.0`. -/
def clean_amount (v : Option (List Char)) : PyFloat :=
  match v with
  | none => ⟨0, 0⟩
  | some s =>
    match pyFloatParse (s.filter fun c => isDig c || c = '.' || c = '-') with
    | some q => q
    | none => ⟨0, 0⟩

/-- New-format amount split, debit side
(`df['_amount_float'].apply(lambda x: abs(x) if x < 0 else 0.0)`). -/
def amountSplitDebit (x : PyFloat) : PyFloat :=
  if x.num < 0 then ⟨|x.num|, x.exp⟩ else ⟨0, 0⟩

/-- New-format amount split, credit side. -/
def amountSplitCredit (x : PyFloat) : PyFloat :=
  if x.num > 0 then ⟨|x.num|, x.exp⟩ else ⟨0, 0⟩

/-- Old-format `Debit/Credit(W)` split, debit side
(`dc.apply(lambda x: clean_amount(x) if "-" in x else 0.0)`). -/
def dcSplitDebit (s : List Char) : PyFloat :=
  if s.contains '-' then clean_amount (some s) else ⟨0, 0⟩

/-- Old-format `Debit/Credit(W)` split, credit side. -/
def dcSplitCredit (s : List Char) : PyFloat :=
  if s.contains '+' then clean_amount (some s) else ⟨0, 0⟩

/-! ## Header detection (`textract_utils.py` lines 291-302) and the
fallback header list (`cleaning_utils.py` lines 319-337) -/

/-- Decidable substring test (Python `pat in s`). -/
def isSubstr (pat l : List Char) : Bool :=
  l.tails.any fun t => pat.isPrefixOf t

def headerIndicators : List (List Char) :=
  ["trans".data, "date".data, "desc".data, "value".data, "debit".data,
   "credit".data, "balance".data, "channel".data, "reference".data]

/-- `" ".join(first_row.astype(str).str.lower())`. -/
def joinLowerRow (r : List (List Char)) : List Char :=
  List.intercalate [' '] (r.map pyLower)

/-- `detect_table_structure` from `textract_utils.py`. -/
def detect_table_structure (rows : List (List (List Char))) : String :=
  match rows with
  | [] => "empty"
  | r :: _ =>
    if r.isEmpty then "empty"
    else if headerIndicators.any (fun h => isSubstr h (joinLowerRow r)) then "with_headers"
    else "data_only"

/-- The number of distinct canonical-field indicators matching row 0 —
the quantity the spec's "≥ 3 distinct canonical fields" decision rule is
stated over. -/
def specHeaderMatchCount (r : List (List Char)) : Nat :=
  (headerIndicators.filter fun h => isSubstr h (joinLowerRow r)).length

/-- The positional fallback header list assigned to data-only tables,
truncated to the column count (`cleaning_utils.py` lines 322-326). -/
def fallbackHeaders (n : Nat) : List String :=
  ["Trans. Time", "Value Date", "Description", "Debit/Credit(W)",
   "Balance(N)", "Channel", "Transaction Reference"].take n

/-! ## `TableMerger` (`statements/table_merger.py`) -/

/-- A pandas cell: `none` is NaN/None. -/
abbrev Cell := Option String

structure Frame where
  cols : List String
  rows : List (List Cell)
deriving Repr, DecidableEq

/-- `df is None or df.empty` for a single frame (no rows or no columns). -/
def frameEmpty (f : Frame) : Bool := f.rows.isEmpty || f.cols.isEmpty

/-- `str(val)` of a cell as pandas `astype(str)` renders it. -/
def cellStr (c : Cell) : List Char :=
  match c with
  | none => "None".data
  | some s => s.data

def columnAliases : List (String × List String) :=
  [("date", ["date", "time", "datetime", "transaction date", "trans date"]),
   ("description", ["description", "desc", "particulars", "details", "narration"]),
   ("debit", ["debit", "withdrawal", "dr", "debit amount"]),
   ("credit", ["credit", "deposit", "cr", "credit amount"]),
   ("amount", ["amount", "transaction amount", "value"]),
   ("balance", ["balance", "running balance", "available balance"]),
   ("reference", ["reference", "ref", "transaction ref", "trn ref"])]

/-- `TableMerger._standardize_column_names`: per-column alias lookup on
the lowered, stripped name,`col_{i}` otherwise; the rename dict's
last-binding-wins semantics is preserved. -/
def standardizeCols (f : Frame) : Frame :=
  if frameEmpty f then f
  else
    let target : Nat → String → String := fun i c =>
      match columnAliases.find? (fun p =>
        p.2.any fun a => isSubstr a.data (pyStrip (pyLower c.data))) with
      | some p => p.1
      | none => "col_" ++ toString i
    let mapping : List (String × String) := f.cols.mapIdx fun i c => (c, target i c)
    let rename : String → String := fun c =>
      match mapping.reverse.find? (fun p => p.1 = c) with
      | some p => p.2
      | none => c
    { f with cols := f.cols.map rename }

/-- `TableMerger._clean_dataframe`: drop all-NaN rows, all-NaN columns,
then rows whose every cell renders to an empty string. -/
def cleanFrame (f : Frame) : Frame :=
  if frameEmpty f then f
  else
    let r1 := f.rows.filter fun r => !r.all fun c => c.isNone
    let keepIdx := (List.range f.cols.length).filter fun j =>
      r1.any fun r => !(r.getD j none).isNone
    let cols2 := keepIdx.map fun j => f.cols.getD j ""
    let rows2 := r1.map fun r => keepIdx.map fun j => r.getD j none
    let rows3 := rows2.filter fun r => !r.all fun c => pyStrip (cellStr c) = []
    ⟨cols2, rows3⟩

/-- Prefix test (`re.match`) for the first date pattern: 1-2 digits, a
slash or dash, 1-2 digits, a slash or dash, then at least 2 digits. -/
def dateCellPat1 (s : List Char) : Bool :=
  let (d1, r1) := digRun s
  (d1.length = 1 || d1.length = 2) &&
  (match r1 with
   | c :: r2 =>
     (c = '/' || c = '-') &&
     (let (d2, r3) := digRun r2
      (d2.length = 1 || d2.length = 2) &&
      (match r3 with
       | c2 :: r4 =>
         (c2 = '/' || c2 = '-') && 2 ≤ (r4.takeWhile isDig).length
       | [] => false))
   | [] => false)

/-- Prefix test for `\d{1,2}\s+[A-Za-z]{3}\s+\d{4}` (`re.match`). -/
def dateCellPat2 (s : List Char) : Bool :=
  let (d1, r1) := digRun s
  (d1.length = 1 || d1.length = 2) &&
  (let (w1, r2) := wsRun r1
   w1.length ≠ 0 &&
   (let a := r2.takeWhile isAlph
    let r3 := r2.dropWhile isAlph
    a.length = 3 &&
    (let (w2, r4) := wsRun r3
     w2.length ≠ 0 && 4 ≤ (r4.takeWhile isDig).length)))

/-- Prefix test for `\d{4}-\d{2}-\d{2}` (`re.match`). -/
def dateCellPat3 (s : List Char) : Bool :=
  let (d1, r1) := digRun s
  d1.length = 4 &&
  (match r1 with
   | '-' :: r2 =>
     let (d2, r3) := digRun r2
     d2.length = 2 &&
     (match r3 with
      | '-' :: r4 => 2 ≤ (r4.takeWhile isDig).length
      | _ => false)
   | _ => false)

/-- `re.search` of the third currency pattern `[\d,]+\.?\d*`, which
matches anywhere a digit or comma occurs; the two `₦` patterns can only
add matches where this one already fires, so the cell-level search
reduces to it. -/
def currencyCellSearch (s : List Char) : Bool :=
  s.any fun c => isDig c || c = ','

/-- `TableMerger._infer_column_type` on a column's cells. -/
def inferColumnType (col : List Cell) : String :=
  if col.isEmpty then "unknown"
  else
    let sample := (col.take 20).map cellStr
    let dateCount := (sample.filter fun v =>
      dateCellPat1 v || dateCellPat2 v || dateCellPat3 v).length
    if dateCount * 10 > sample.length * 3 then "date"
    else
      let curCount := (sample.filter currencyCellSearch).length
      if curCount * 10 > sample.length * 3 then "amount"
      else if (sample.map List.length).sum > 10 * sample.length then "text"
      else "unknown"

/-- Python `str.split()` (whitespace words). -/
def splitWs (l : List Char) : List (List Char) :=
  (l.splitOnP isWs).filter fun w => w ≠ []

/-- `TableMerger._calculate_name_similarity`, scaled by 10 (the source
values 1.0 / 0.8 / 0.6 / 0.0 become 10 / 8 / 6 / 0; all score
comparisons are between multiples of 0.01, so the scaling is exact). -/
def nameSim10 (n1 n2 : String) : Nat :=
  let a := pyLower n1.data
  let b := pyLower n2.data
  if a = b then 10
  else if isSubstr a b || isSubstr b a then 8
  else if (splitWs a).any (fun w => (splitWs b).contains w) then 6
  else 0

/-- `TableMerger._calculate_content_similarity`, scaled by 10
(0.7 / 0.0 become 7 / 0). -/
def contentSim10 (c1 c2 : List Cell) : Nat :=
  if c1.isEmpty || c2.isEmpty then 0
  else if inferColumnType c1 ≠ inferColumnType c2 then 0
  else 7

/-- Column `j` of a frame as a pandas Series. -/
def colOf (f : Frame) (j : Nat) : List Cell :=
  f.rows.map fun r => r.getD j none

/-- The weighted compatibility score of `_find_column_matches`, scaled
by 100: `type*0.4 + name*0.3 + content*0.3` becomes
`type10*4 + name10*3 + content10*3` in hundredths. -/
def colScore100 (t1 : Frame) (i : Nat) (n1 : String) (t2 : Frame) (j : Nat) (n2 : String) : Nat :=
  let v1 := colOf t1 i
  let v2 := colOf t2 j
  let ts : Nat := if inferColumnType v1 = inferColumnType v2 then 10 else 0
  ts * 4 + nameSim10 n1 n2 * 3 + contentSim10 v1 v2 * 3

/-- The best-match fold of `_find_column_matches` for one base column:
keep a candidate only when it strictly beats both the running best and
the 0.5 (= 50 hundredths) threshold. -/
def bestMatchFor (t1 t2 : Frame) (i : Nat) (n1 : String) : Option String :=
  (t2.cols.enum.foldl (fun (acc : Nat × Option String) q =>
    if colScore100 t1 i n1 t2 q.1 q.2 > acc.1 && colScore100 t1 i n1 t2 q.1 q.2 > 50
    then (colScore100 t1 i n1 t2 q.1 q.2, some q.2) else acc) (0, none)).2

/-- `TableMerger._find_column_matches`. -/
def findColumnMatches (t1 t2 : Frame) : List (String × String) :=
  t1.cols.enum.filterMap fun p => (bestMatchFor t1 t2 p.1 p.2).map fun m => (p.2, m)

/-- `TableMerger._align_table_structure`: matched targets take the
source column, unmatched targets become all-`None` columns; the
`pd.DataFrame` construction cannot fail here since every column has
`len(table)` entries. -/
def alignTable (t2 : Frame) (targetCols : List String) (mtchs : List (String × String)) :
    Option Frame :=
  let colVals := targetCols.map fun tc =>
    (mtchs.find? (fun p => p.1 = tc)).elim (t2.rows.map fun _ => (none : Cell))
      fun p => colOf t2 (t2.cols.indexOf p.2)
  some ⟨targetCols, (List.range t2.rows.length).map fun r => colVals.map fun cv => cv.getD r none⟩

/-- `TableMerger._try_smart_vertical_merge` (`return tables[0] if
tables else None` for fewer than two tables, else left fold of
align-and-concat over the rest). -/
def smartVerticalMerge (tables : List Frame) : Option Frame :=
  if tables.length < 2 then tables.head?
  else
    some (tables.tail.foldl (fun base cur =>
      (alignTable cur base.cols (findColumnMatches base cur)).elim base
        fun aligned => ⟨base.cols, base.rows ++ aligned.rows⟩)
      (tables.headD ⟨[], []⟩))

def headerKeywords : List String :=
  ["date", "time", "datetime", "trans",
   "description", "particulars", "details", "narration",
   "debit", "credit", "amount", "money",
   "balance", "reference", "channel",
   "category", "to / from", "from/to"]

/-- `TableMerger._remove_header_rows`: keep rows with fewer than 30% of
the header keywords; if nothing survives, the frame is returned
unchanged. -/
def removeHeaderRows (f : Frame) : Frame :=
  if frameEmpty f then f
  else
    let keep := f.rows.filter fun r =>
      let toks := r.filterMap fun c =>
        match c with
        | some s => if s = "" then none else some (pyStrip (pyLower s.data))
        | none => none
      let rowStr := List.intercalate [' '] toks
      ((headerKeywords.filter fun k => isSubstr k.data rowStr).length) * 10
        < headerKeywords.length * 3
    if keep.isEmpty then f else ⟨f.cols, keep⟩

/-- The common-column list of `_try_vertical_merge`.  The iteration
order of `set(all_columns)` is unspecified in Python; first-occurrence
order is used, which fixes only the column order of the common-column
result. -/
def commonColumns (tables : List Frame) : List String :=
  (tables.foldl (fun acc t => acc ++ t.cols) []).dedup.filter fun c =>
    tables.all fun t => t.cols.contains c

/-- `TableMerger._try_vertical_merge`. -/
def tryVerticalMerge (tables : List Frame) : Option Frame :=
  if tables.isEmpty then none
  else if (commonColumns tables).isEmpty then smartVerticalMerge tables
  else
    some (removeHeaderRows
      ⟨commonColumns tables,
       (tables.map fun t =>
         t.rows.map fun r =>
           (commonColumns tables).map fun c => r.getD (t.cols.indexOf c) none).flatten⟩)

/-- `max(aligned_tables, key=lambda x: len(x))` (first maximum wins). -/
def fallbackLargest (ts : List Frame) : Option Frame :=
  match ts with
  | [] => none
  | t :: rest =>
    some (rest.foldl (fun best c => if c.rows.length > best.rows.length then c else best) t)

/-- `TableMerger.merge_tables` on the tables' frames: `None` for no
tables, the single table returned directly, otherwise standardize,
clean and drop empty tables, try the vertical merge, and fall back to
the largest cleaned table when the merge result is missing or empty. -/
def merge_tables (tables : List Frame) : Option Frame :=
  if tables.isEmpty then none
  else if tables.length = 1 then some (tables.headD ⟨[], []⟩)
  else
    if ((tables.map fun t => cleanFrame (standardizeCols t)).filter
        fun t => !frameEmpty t).isEmpty then none
    else
      (tryVerticalMerge ((tables.map fun t => cleanFrame (standardizeCols t)).filter
        fun t => !frameEmpty t)).elim
        (fallbackLargest ((tables.map fun t => cleanFrame (standardizeCols t)).filter
          fun t => !frameEmpty t))
        fun m =>
          if !frameEmpty m then some m
          else fallbackLargest ((tables.map fun t => cleanFrame (standardizeCols t)).filter
            fun t => !frameEmpty t)

/-! ## `process_statement_with_router` (`processing_router.py` lines
8-73), with the stages inside the `try` block as explicit behaviors -/

structure Block where
  blockType : Option String := none
  textU : Option String := none
  textL : Option String := none
deriving Repr, DecidableEq

/-- `b.get("Text") or b.get("text") or ""` (falsy chaining). -/
def blockText (b : Block) : String :=
  match b.textU with
  | some t => if t = "" then (match b.textL with | some u => u | none => "") else t
  | none => match b.textL with | some u => u | none => ""

def pyUpper (l : List Char) : List Char := l.map Char.toUpper

def bankKeywords : List (String × List String) :=
  [("KUDA", ["KUDA", "KUDA BANK", "KUDA MICROFINANCE", "KUDA BANK LIMITED"]),
   ("GTBANK", ["GTBANK", "GUARANTY", "GUARANTY TRUST"]),
   ("ZENITH", ["ZENITH", "ZENITH BANK"]),
   ("ACCESS", ["ACCESS", "ACCESS BANK"]),
   ("UBA", ["UBA", "UNITED BANK FOR AFRICA"]),
   ("FCMB", ["FCMB", "FIRST CITY MONUMENT BANK"]),
   ("UNKNOWN", [])]

/-- `detect_bank_from_text` (`bank_detection.py`). -/
def detect_bank_from_text (raw : String) : String :=
  if raw = "" then "UNKNOWN"
  else
    let s := pyUpper raw.data
    match bankKeywords.findSome? (fun p =>
      if p.2.any (fun kw => isSubstr (pyUpper kw.data) s) then some p.1 else none) with
    | some k => k
    | none => "UNKNOWN"

/-- `detect_bank_from_textract_blocks` (`bank_detection.py`). -/
def detect_bank_from_textract_blocks (blocks : List Block) : String :=
  if blocks.isEmpty then "UNKNOWN"
  else
    let texts := blocks.filterMap fun b =>
      let t := blockText b
      if t = "" then none else some t
    detect_bank_from_text (String.intercalate " " (texts.take 600))

inductive ProcSel where
  | generic
  | bank (code : String)
deriving Repr, DecidableEq

/-- `get_processor` (`banklytik_core/bank_registry.py`): the two active
banks resolve their processor modules (both exist in the repository);
everything else falls back to the generic table processor. -/
def get_processor (code : String) : ProcSel :=
  if code = "AUTO" then .generic
  else if code = "KUDA" || code = "OPAY" then .bank code
  else .generic

/-- The canonical output columns of `robust_clean_dataframe`
(`cleaning_utils.py` lines 241-246 and 414-418). -/
def canonicalCols : List String :=
  ["date", "raw_date", "value_date", "description", "debit", "credit",
   "balance", "channel", "transaction_reference", "row_issue"]

/-- `robust_clean_dataframe` on `None` or an empty frame
(`cleaning_utils.py` lines 240-246): the empty canonical frame. -/
def robustCleanEmptyResult : Frame := ⟨canonicalCols, []⟩

/-- The behaviors of the pipeline stages called inside the router's
`try` block; each may raise (`Except.error`). -/
structure RouterEnv where
  tablesOf : List Block → List Frame
  directProc : List Frame → Except Unit Frame
  bankProc : String → List Block → Except Unit Frame
  genericOnBlocks : List Block → Except Unit Frame
  robust : Frame → Except Unit Frame

/-- `extract_all_tables` returns `[]` outright on empty block input
(`textract_utils.py` lines 208-209); otherwise the reconstruction. -/
def extract_all_tables (env : RouterEnv) (blocks : List Block) : List Frame :=
  if blocks.isEmpty then [] else env.tablesOf blocks

/-- The tail of the router's `try` block shared by both branches:
empty-check, robust cleaning, empty-check. -/
def routerTail (env : RouterEnv) (dfRaw : Frame) : Except Unit (Option Frame) :=
  if frameEmpty dfRaw then .ok none
  else do
    let clean ← env.robust dfRaw
    if !frameEmpty clean then pure (some clean) else pure none

/-- `process_statement_with_router`: processor selection happens before
the `try`; every stage inside it has its exception converted to `None`. -/
def process_statement_with_router (env : RouterEnv) (blocks : List Block)
    (bank_type : Option String) : Option Frame :=
  let premarked := match bank_type with
    | some bt => bt ≠ "" && bt ≠ "AUTO"
    | none => false
  let sel : ProcSel :=
    if premarked then get_processor (bank_type.getD "")
    else get_processor (detect_bank_from_textract_blocks blocks)
  let body : Except Unit (Option Frame) :=
    if !premarked then
      let tables := extract_all_tables env blocks
      if tables.isEmpty then .ok none
      else do
        let dfRaw ← env.directProc tables
        routerTail env dfRaw
    else do
      let dfRaw ← (match sel with
        | .bank c => env.bankProc c blocks
        | .generic => env.genericOnBlocks blocks)
      routerTail env dfRaw
  match body with
  | .ok r => r
  | .error _ => none


/-! ## Shared helper lemmas -/

theorem takeWhile_append_all {p : Char → Bool} {A B : List Char}
    (h : ∀ c ∈ A, p c = true) : (A ++ B).takeWhile p = A ++ B.takeWhile p := by
  induction A with
  | nil => simp
  | cons a t ih =>
    simp [List.cons_append, List.takeWhile_cons, h a (by simp),
      ih fun c hc => h c (by simp [hc])]

theorem dropWhile_append_all {p : Char → Bool} {A B : List Char}
    (h : ∀ c ∈ A, p c = true) : (A ++ B).dropWhile p = B.dropWhile p := by
  induction A with
  | nil => simp
  | cons a t ih =>
    simp only [List.cons_append, List.dropWhile_cons, h a (by simp)]
    simp only [if_true]
    exact ih fun c hc => h c (by simp [hc])

theorem takeWhile_append_head_neg {p : Char → Bool} {A B : List Char}
    (h : ∀ c ∈ A, p c = true) (hB : ∀ c, B.head? = some c → p c = false) :
    (A ++ B).takeWhile p = A := by
  rw [takeWhile_append_all h]
  cases B with
  | nil => simp
  | cons b t => simp [List.takeWhile_cons, hB b rfl]

theorem dropWhile_append_head_neg {p : Char → Bool} {A B : List Char}
    (h : ∀ c ∈ A, p c = true) (hB : ∀ c, B.head? = some c → p c = false) :
    (A ++ B).dropWhile p = B := by
  rw [dropWhile_append_all h]
  cases B with
  | nil => simp
  | cons b t => simp [List.dropWhile_cons, hB b rfl]

theorem strip_ends_eq {p : Char → Bool} {l : List Char}
    (h1 : ∀ c, l.head? = some c → p c = false)
    (h2 : ∀ c, l.getLast? = some c → p c = false) :
    ((l.dropWhile p).reverse.dropWhile p).reverse = l := by
  have hd : l.dropWhile p = l := by
    cases l with
    | nil => rfl
    | cons a t => simp [List.dropWhile_cons, h1 a rfl]
  rw [hd]
  have hr : l.reverse.dropWhile p = l.reverse := by
    cases hrev : l.reverse with
    | nil => rfl
    | cons a t =>
      have : l.getLast? = some a := by rw [← List.head?_reverse, hrev]; rfl
      simp [List.dropWhile_cons, h2 a this]
  rw [hr, List.reverse_reverse]

theorem isDig_toNat {c : Char} : isDig c = true ↔ 48 ≤ c.toNat ∧ c.toNat ≤ 57 := by
  simp only [isDig, Char.isDigit, Bool.and_eq_true, decide_eq_true_eq]
  exact Iff.rfl

theorem isAlph_toNat {c : Char} : isAlph c = true ↔
    (97 ≤ c.toNat ∧ c.toNat ≤ 122) ∨ (65 ≤ c.toNat ∧ c.toNat ≤ 90) := by
  simp only [isAlph, Bool.or_eq_true, Bool.and_eq_true, decide_eq_true_eq]
  exact Iff.rfl

theorem isWs_cases {c : Char} (h : isWs c = true) :
    c = ' ' ∨ c = '\t' ∨ c = '\n' ∨ c = '\x0d' ∨ c = Char.ofNat 11 ∨ c = Char.ofNat 12 := by
  simp only [isWs, Bool.or_eq_true, decide_eq_true_eq] at h
  tauto

theorem isDig_false_of_isAlph {c : Char} (h : isAlph c = true) : isDig c = false := by
  rw [isAlph_toNat] at h
  rw [Bool.eq_false_iff]
  intro hd
  rw [isDig_toNat] at hd
  omega

theorem isWs_false_of_isAlph {c : Char} (h : isAlph c = true) : isWs c = false := by
  rw [isAlph_toNat] at h
  rw [Bool.eq_false_iff]
  intro hw
  rcases isWs_cases hw with rfl | rfl | rfl | rfl | rfl | rfl <;> simp_all

theorem isWs_false_of_isDig {c : Char} (h : isDig c = true) : isWs c = false := by
  rw [isDig_toNat] at h
  rw [Bool.eq_false_iff]
  intro hw
  rcases isWs_cases hw with rfl | rfl | rfl | rfl | rfl | rfl <;> simp_all

theorem isAlph_false_of_isDig {c : Char} (h : isDig c = true) : isAlph c = false := by
  rw [isDig_toNat] at h
  rw [Bool.eq_false_iff]
  intro ha
  rw [isAlph_toNat] at ha
  omega

theorem isAlph_false_of_isWs {c : Char} (h : isWs c = true) : isAlph c = false := by
  rw [Bool.eq_false_iff]
  intro ha
  rw [isWs_false_of_isAlph ha] at h
  exact Bool.false_ne_true h

theorem isDig_false_of_isWs {c : Char} (h : isWs c = true) : isDig c = false := by
  rw [Bool.eq_false_iff]
  intro hd
  rw [isWs_false_of_isDig hd] at h
  exact Bool.false_ne_true h

/-- Every month has at least 28 days. -/
theorem monthLength_ge (y m : Nat) : 28 ≤ monthLength y m := by
  unfold monthLength
  split
  · split <;> omega
  · split <;> omega

/-! ## Claim C2: validator precedence between impossible-time (ERROR)
and out-of-range (WARNING) -/

/-- C2 counterexample: raw string "25:99:99" has an impossible time and
the parsed date 1900-01-01 is out of range at now = 2026-10-12, yet
`validate_date` reports `WARNING`, not `ERROR`: the range check
overwrites the impossible-time level, so FLAG_CRITICAL does *not* take
precedence as the claim states. -/
theorem c2_counterexample :
    has_impossible_time ("25:99:99".data) = true ∧
    is_date_too_far_in_past ⟨2026, 10, 12, 0, 0, 0⟩ ⟨1900, 1, 1, 0, 0, 0⟩ = true ∧
    (validate_date ⟨2026, 10, 12, 0, 0, 0⟩ (some ("25:99:99".data))
      (some ⟨1900, 1, 1, 0, 0, 0⟩)).warning_level ≠ WLevel.ERROR := by
  refine ⟨by decide, by decide, by decide⟩

/-- C2 (amended): for a non-null raw date string with an impossible
time whose parsed date lies outside the allowed range, the final
category is the review level `WARNING`: the later range check
overwrites the `ERROR` set by the impossible-time check (last write
wins; there is no FLAG_CRITICAL precedence). -/
theorem c2_amended (now : PyDateTime) (s : List Char) (d : PyDateTime)
    (hnull : nullishRaw (some s) = false)
    (himp : has_impossible_time s = true)
    (hrange : is_date_too_far_in_future now d = true ∨ is_date_too_far_in_past now d = true) :
    (validate_date now (some s) (some d)).warning_level = WLevel.WARNING := by
  unfold validate_date
  rw [if_neg (by simp [hnull])]
  simp only [Option.getD_some, Option.isNone_some, Bool.false_and, Bool.false_eq_true,
    if_false, himp, if_true]
  by_cases hocr : is_ocr_error_pattern s = true
  · simp only [hocr, if_true]
    rcases hrange with hf | hp
    · simp only [hf, if_true]
      by_cases hpp : is_date_too_far_in_past now d = true
      · simp [hpp]
      · simp [Bool.not_eq_true] at hpp
        simp [hpp]
    · by_cases hff : is_date_too_far_in_future now d = true
      · simp [hff, hp]
      · simp [Bool.not_eq_true] at hff
        simp [hff, hp]
  · simp only [Bool.not_eq_true] at hocr
    simp only [hocr, Bool.false_eq_true, if_false]
    rcases hrange with hf | hp
    · simp only [hf, if_true]
      by_cases hpp : is_date_too_far_in_past now d = true
      · simp [hpp]
      · simp [Bool.not_eq_true] at hpp
        simp [hpp]
    · by_cases hff : is_date_too_far_in_future now d = true
      · simp [hff, hp]
      · simp [Bool.not_eq_true] at hff
        simp [hff, hp]

/-- C2 witness: the amended theorem applied at the counterexample
input. -/
theorem c2_amended_witness :
    (validate_date ⟨2026, 10, 12, 0, 0, 0⟩ (some ("25:99:99".data))
      (some ⟨1900, 1, 1, 0, 0, 0⟩)).warning_level = WLevel.WARNING :=
  c2_amended ⟨2026, 10, 12, 0, 0, 0⟩ ("25:99:99".data) ⟨1900, 1, 1, 0, 0, 0⟩
    (by decide) (by decide) (Or.inr (by decide))

/-! ## Claim C4: inference clamping -/

/-- C4 counterexample: on the missing-month path, input "31 2025" with
a February-2025 context date infers "31 Feb 2025" — day 31 exceeds the
last valid day (28) of the inferred target month, so the clamping claim
fails on that path. -/
theorem c4_counterexample :
    infer_missing_components ⟨2026, 10, 12, 0, 0, 0⟩ ("31 2025".data)
      [⟨2025, 2, 10, 0, 0, 0⟩] = .ok ("31 Feb 2025".data, Conf.MEDIUM) ∧
    monthLength 2025 2 = 28 ∧ (28 : Nat) < 31 := by
  refine ⟨by decide, by decide, by decide⟩

/-- Dispatch fact: a non-empty month+year-shaped input takes the
missing-day branch. -/
theorem infer_eq_inferMonthYear {now : PyDateTime} {s mn : List Char} {y : Nat}
    {ctx : List PyDateTime} (hne : s.isEmpty = false)
    (hsplit : monthYearSplit s = some (mn, y)) :
    infer_missing_components now s ctx = inferMonthYear s mn y ctx := by
  unfold infer_missing_components
  rw [if_neg (by simp [hne]), hsplit]

/-- C4 (amended): clamping does hold on the missing-day path: whenever
the input matches the month+year pattern with a recognized month
abbreviation `m`, any result the resolver returns prefixes a day that
never exceeds the last valid day of month `m` of the pattern's year.
(The missing-month "DD YYYY" path performs no such clamp.) -/
theorem c4_amended (now : PyDateTime) (s : List Char) (ctx : List PyDateTime)
    (mn : List Char) (y : Nat) (hsplit : monthYearSplit s = some (mn, y))
    (m : Nat) (hm : parseMonthAbbrev (mn.take 3) = some m)
    (t : List Char) (c : Conf)
    (hres : infer_missing_components now s ctx = .ok (t, c)) :
    ∃ d, t = natToChars d ++ ' ' :: s ∧ d ≤ monthLength y m := by
  have hne : s.isEmpty = false := by
    cases s with
    | nil => simp [monthYearSplit] at hsplit
    | cons a l => rfl
  rw [infer_eq_inferMonthYear hne hsplit] at hres
  unfold inferMonthYear at hres
  by_cases hctx : ctx.isEmpty = true
  · rw [if_pos hctx] at hres
    cases hres
    exact ⟨15, rfl, le_trans (by omega) (monthLength_ge y m)⟩
  · rw [if_neg hctx] at hres
    by_cases hsy : (ctx.filter fun d => d.year = y).isEmpty = true
    · rw [if_pos hsy] at hres
      cases hres
      exact ⟨15, rfl, le_trans (by omega) (monthLength_ge y m)⟩
    · rw [if_neg hsy] at hres
      by_cases hsm : ((ctx.filter fun d => d.year = y).filter
          fun d => strftimeB d.month = mn.take 3).isEmpty = true
      · rw [if_pos hsm, hm] at hres
        simp only [Option.elim_some, Except.ok.injEq, Prod.mk.injEq] at hres
        exact ⟨_, hres.1.symm, min_le_right _ _⟩
      · rw [if_neg hsm, hm] at hres
        simp only [Option.elim_some, Except.ok.injEq, Prod.mk.injEq] at hres
        exact ⟨_, hres.1.symm, min_le_right _ _⟩

/-- C4 witness: the amended theorem at "Feb 2025" with empty context
(day 15, within February). -/
theorem c4_amended_witness :
    ∃ d, ("15 Feb 2025".data) = natToChars d ++ ' ' :: ("Feb 2025".data) ∧
      d ≤ monthLength 2025 2 :=
  c4_amended ⟨2026, 10, 12, 0, 0, 0⟩ ("Feb 2025".data) [] ("Feb".data) 2025
    (by decide) 2 (by decide) ("15 Feb 2025".data) Conf.LOW (by decide)

/-! ## Claim C7: the header decision rule -/

/-- C7 counterexample: a first row matching exactly one canonical
indicator ("date") is already treated as a header row by the code,
refuting the "if and only if at least 3 distinct canonical fields
match" rule. -/
theorem c7_counterexample :
    detect_table_structure [["date".data, "x".data]] = "with_headers" ∧
    specHeaderMatchCount ["date".data, "x".data] = 1 := by
  refine ⟨by decide, by decide⟩

/-- C7 (amended): row 0 of a non-empty reconstructed table is treated
as a header row iff at least ONE canonical indicator occurs as a
substring of its joined lowered cells (not three); data-only tables get
the fixed positional fallback header list truncated to the column
count. -/
theorem c7_amended (r : List (List Char)) (rest : List (List (List Char)))
    (hne : r ≠ []) (n : Nat) :
    (detect_table_structure (r :: rest) = "with_headers" ↔ 1 ≤ specHeaderMatchCount r) ∧
    fallbackHeaders n = ["Trans. Time", "Value Date", "Description", "Debit/Credit(W)",
      "Balance(N)", "Channel", "Transaction Reference"].take n := by
  constructor
  · have hd : detect_table_structure (r :: rest) =
        (if r.isEmpty = true then "empty"
         else if (headerIndicators.any fun h => isSubstr h (joinLowerRow r)) = true
         then "with_headers" else "data_only") := rfl
    rw [hd]
    unfold specHeaderMatchCount
    rw [if_neg (by simp [hne])]
    by_cases h : headerIndicators.any (fun h => isSubstr h (joinLowerRow r)) = true
    · simp only [h, if_true, true_iff]
      rw [List.any_eq_true] at h
      obtain ⟨x, hx, hsub⟩ := h
      have : x ∈ headerIndicators.filter fun h => isSubstr h (joinLowerRow r) :=
        List.mem_filter.mpr ⟨hx, hsub⟩
      have := List.length_pos.mpr (List.ne_nil_of_mem this)
      omega
    · simp only [Bool.not_eq_true] at h
      simp only [h, Bool.false_eq_true, if_false]
      constructor
      · intro hcontra
        exact absurd hcontra (by decide)
      · intro hlen
        exfalso
        rw [List.any_eq_false] at h
        have : (headerIndicators.filter fun hh => isSubstr hh (joinLowerRow r)) = [] := by
          rw [List.filter_eq_nil_iff]
          intro a ha
          simp [h a ha]
        rw [this] at hlen
        simp at hlen
  · rfl

/-- C7 witness: the amended rule at the one-indicator row. -/
theorem c7_amended_witness :
    (detect_table_structure [["date".data, "x".data]] = "with_headers" ↔
      1 ≤ specHeaderMatchCount ["date".data, "x".data]) ∧
    fallbackHeaders 3 = ["Trans. Time", "Value Date", "Description", "Debit/Credit(W)",
      "Balance(N)", "Channel", "Transaction Reference"].take 3 :=
  c7_amended ["date".data, "x".data] [] (by decide) 3

/-! ## Claim C9: debit/credit exclusivity of the sign splits -/

/-- C9 counterexample: on the old-format combined `Debit/Credit(W)`
split, the cell "-100" contains "-" so the debit field becomes
`clean_amount("-100") = -100.0` — a **negative** debit, refuting
"both fields are non-negative" (and "debit is set only from negative
amounts" sets it *to* the negative amount, not its magnitude). -/
theorem c9_counterexample :
    dcSplitDebit ("-100".data) = ⟨-100, 0⟩ ∧
    (dcSplitDebit ("-100".data)).num < 0 ∧
    dcSplitCredit ("-100".data) = ⟨0, 0⟩ := by
  refine ⟨by decide, by decide, by decide⟩

/-- C9 (amended): the invariant does hold for the new-format single
`amount` column split on sign: both resulting fields are non-negative
and at most one is non-zero (debit from negative amounts only, credit
from positive only).  The old-format `Debit/Credit(W)` split lacks it. -/
theorem c9_amended (x : PyFloat) :
    0 ≤ (amountSplitDebit x).num ∧ 0 ≤ (amountSplitCredit x).num ∧
    ((amountSplitDebit x).num = 0 ∨ (amountSplitCredit x).num = 0) ∧
    (x.num < 0 → (amountSplitDebit x).num = |x.num| ∧ (amountSplitCredit x).num = 0) ∧
    (0 < x.num → (amountSplitCredit x).num = |x.num| ∧ (amountSplitDebit x).num = 0) := by
  unfold amountSplitDebit amountSplitCredit
  rcases lt_trichotomy x.num 0 with h | h | h
  · rw [if_pos h, if_neg (by omega)]
    refine ⟨abs_nonneg _, le_refl 0, Or.inr rfl, fun _ => ⟨rfl, rfl⟩, fun hc => absurd hc (by omega)⟩
  · rw [if_neg (by omega), if_neg (by omega)]
    exact ⟨le_refl 0, le_refl 0, Or.inl rfl, fun hc => absurd hc (by omega),
      fun hc => absurd hc (by omega)⟩
  · rw [if_neg (by omega), if_pos (by omega)]
    exact ⟨le_refl 0, abs_nonneg _, Or.inl rfl, fun hc => absurd hc (by omega),
      fun _ => ⟨rfl, rfl⟩⟩

/-! ## Claim C5: pipeline totality -/

/-- C5 counterexample: on empty OCR input (no pre-marked bank) the
router returns `none` — the explicit Optional "no result" — not a
well-typed zero-row frame with the canonical transaction columns. -/
theorem c5_counterexample :
    process_statement_with_router
      ⟨fun _ => [], fun _ => .error (), fun _ _ => .error (),
       fun _ => .error (), fun _ => .error ()⟩ [] none = none := by
  decide

/-- C5 (amended): the router never raises — processor selection before
the `try` is total and every stage exception inside it is caught and
converted to `None` — but its "zero transactions" outcome is `None`,
not a zero-row frame: on empty OCR input with no pre-marked bank it
returns `None` for every stage behavior, and even when every stage
raises it still returns `None` for arbitrary input.  The zero-row
canonical frame exists only inside `robust_clean_dataframe`, whose
empty-input branch returns it. -/
theorem c5_amended :
    (∀ env : RouterEnv, process_statement_with_router env [] none = none) ∧
    robustCleanEmptyResult =
      ⟨["date", "raw_date", "value_date", "description", "debit", "credit",
        "balance", "channel", "transaction_reference", "row_issue"], []⟩ ∧
    (∀ (tablesOf : List Block → List Frame) (blocks : List Block) (bt : Option String),
      process_statement_with_router
        ⟨tablesOf, fun _ => .error (), fun _ _ => .error (),
         fun _ => .error (), fun _ => .error ()⟩ blocks bt = none) := by
  refine ⟨fun env => rfl, rfl, fun tablesOf blocks bt => ?_⟩
  unfold process_statement_with_router routerTail
  by_cases hpre : (match bt with
    | some bt => bt ≠ "" && bt ≠ "AUTO"
    | none => false) = true
  · simp only [hpre, Bool.not_true, Bool.false_eq_true, if_false]
    cases get_processor (bt.getD "") <;> rfl
  · simp only [Bool.not_eq_true] at hpre
    simp only [hpre, Bool.not_false, if_true]
    by_cases hemp : (extract_all_tables
        ⟨tablesOf, fun _ => .error (), fun _ _ => .error (),
         fun _ => .error (), fun _ => .error ()⟩ blocks).isEmpty = true
    · simp [hemp]
    · simp only [Bool.not_eq_true] at hemp
      simp only [hemp, Bool.false_eq_true, if_false]
      rfl

/-! ## Claim C6: merge fallback with zero compatible columns -/

/-- C6 counterexample: two tables with no shared column names and no
pair scoring above 0.5 — `merge_tables` returns the FIRST table's rows
padded with all-null rows for the second table (3 rows), not the single
largest input table (the second, 2 rows) unmodified. -/
theorem c6_counterexample :
    merge_tables [⟨["date"], [[some "01/02/2025"]]⟩,
                  ⟨["zzz"], [[some "apple pie xyz"], [some "b"]]⟩]
      = some ⟨["date"], [[some "01/02/2025"], [none], [none]]⟩ ∧
    merge_tables [⟨["date"], [[some "01/02/2025"]]⟩,
                  ⟨["zzz"], [[some "apple pie xyz"], [some "b"]]⟩]
      ≠ some ⟨["zzz"], [[some "apple pie xyz"], [some "b"]]⟩ ∧
    merge_tables [⟨["date"], [[some "01/02/2025"]]⟩,
                  ⟨["zzz"], [[some "apple pie xyz"], [some "b"]]⟩]
      ≠ some (cleanFrame (standardizeCols ⟨["zzz"], [[some "apple pie xyz"], [some "b"]]⟩)) ∧
    (cleanFrame (standardizeCols ⟨["zzz"], [[some "apple pie xyz"], [some "b"]]⟩)).rows.length
      = 2 := by
  refine ⟨by decide, by decide, by decide, by decide⟩

theorem bestMatchFor_none {t1 t2 : Frame} {i : Nat} {n1 : String}
    (h : ∀ q ∈ t2.cols.enum, colScore100 t1 i n1 t2 q.1 q.2 ≤ 50) :
    bestMatchFor t1 t2 i n1 = none := by
  unfold bestMatchFor
  have hfold : ∀ (l : List (Nat × String)),
      (∀ q ∈ l, colScore100 t1 i n1 t2 q.1 q.2 ≤ 50) →
      ∀ acc : Nat × Option String,
        l.foldl (fun acc q =>
          if colScore100 t1 i n1 t2 q.1 q.2 > acc.1 && colScore100 t1 i n1 t2 q.1 q.2 > 50
          then (colScore100 t1 i n1 t2 q.1 q.2, some q.2) else acc) acc = acc := by
    intro l
    induction l with
    | nil => intro _ acc; rfl
    | cons a l ih =>
      intro hl acc
      have ha := hl a (by simp)
      rw [List.foldl_cons, if_neg (by simp; omega)]
      exact ih (fun q hq => hl q (by simp [hq])) acc
  rw [hfold t2.cols.enum h (0, none)]

theorem findColumnMatches_eq_nil {t1 t2 : Frame}
    (h : ∀ p ∈ t1.cols.enum, ∀ q ∈ t2.cols.enum,
      colScore100 t1 p.1 p.2 t2 q.1 q.2 ≤ 50) :
    findColumnMatches t1 t2 = [] := by
  unfold findColumnMatches
  rw [List.filterMap_eq_nil_iff]
  intro p hp
  rw [bestMatchFor_none (h p hp)]
  rfl

theorem getD_map_const {α : Type} (L : List α) (r : Nat) :
    (L.map fun _ => (none : Cell)).getD r none = none := by
  induction L generalizing r with
  | nil => simp [List.getD]
  | cons a l ih =>
    cases r with
    | zero => simp [List.getD]
    | succ n => simpa [List.getD] using ih n

theorem alignTable_nil (t2 : Frame) (cols : List String) :
    alignTable t2 cols [] = some
      ⟨cols, List.replicate t2.rows.length (cols.map fun _ => (none : Cell))⟩ := by
  unfold alignTable
  simp only [List.find?_nil, Option.elim_none, Option.some.injEq, Frame.mk.injEq, true_and]
  have hrow : ∀ r : Nat,
      ((cols.map fun _ => t2.rows.map fun _ => (none : Cell)).map fun cv => cv.getD r none)
        = cols.map fun _ => (none : Cell) := by
    intro r
    rw [List.map_map]
    refine List.map_congr_left fun c _ => ?_
    simp only [Function.comp]
    exact getD_map_const t2.rows r
  calc (List.range t2.rows.length).map
        (fun r => (cols.map fun _ => t2.rows.map fun _ => (none : Cell)).map
          fun cv => cv.getD r none)
      = (List.range t2.rows.length).map fun _ => cols.map fun _ => (none : Cell) :=
        List.map_congr_left fun r _ => hrow r
    _ = List.replicate t2.rows.length (cols.map fun _ => (none : Cell)) := by
        rw [List.map_const', List.length_range]

/-- C6 (amended): with no common column names and every pairwise column
score at or below the 0.5 threshold, the smart vertical merge pads the
second cleaned table's rows to nulls and concatenates them after the
first cleaned table — the result is the first table plus null rows, not
the single largest input table, and the "largest table" fallback never
fires. -/
theorem c6_amended (t1 t2 : Frame)
    (hu : frameEmpty (cleanFrame (standardizeCols t1)) = false)
    (hv : frameEmpty (cleanFrame (standardizeCols t2)) = false)
    (hdisj : ∀ c ∈ (cleanFrame (standardizeCols t1)).cols,
      c ∉ (cleanFrame (standardizeCols t2)).cols)
    (hsc : ∀ p ∈ (cleanFrame (standardizeCols t1)).cols.enum,
      ∀ q ∈ (cleanFrame (standardizeCols t2)).cols.enum,
        colScore100 (cleanFrame (standardizeCols t1)) p.1 p.2
          (cleanFrame (standardizeCols t2)) q.1 q.2 ≤ 50) :
    merge_tables [t1, t2] = some
      ⟨(cleanFrame (standardizeCols t1)).cols,
       (cleanFrame (standardizeCols t1)).rows ++
         List.replicate (cleanFrame (standardizeCols t2)).rows.length
           ((cleanFrame (standardizeCols t1)).cols.map fun _ => (none : Cell))⟩ := by
  set u := cleanFrame (standardizeCols t1) with hudef
  set v := cleanFrame (standardizeCols t2) with hvdef
  have hmap : ([t1, t2].map fun t => cleanFrame (standardizeCols t)) = [u, v] := by
    simp [hudef, hvdef]
  have hfil : (([t1, t2].map fun t => cleanFrame (standardizeCols t)).filter
      fun t => !frameEmpty t) = [u, v] := by
    rw [hmap]
    simp [List.filter, hu, hv]
  have hcommon : commonColumns [u, v] = [] := by
    unfold commonColumns
    rw [List.filter_eq_nil_iff]
    intro c _ hall
    simp only [List.all_cons, List.all_nil, Bool.and_true, Bool.and_eq_true] at hall
    obtain ⟨hcu, hcv⟩ := hall
    exact absurd (List.mem_of_elem_eq_true hcv) (hdisj c (List.mem_of_elem_eq_true hcu))
  have hsmart : smartVerticalMerge [u, v] = some
      ⟨u.cols, u.rows ++ List.replicate v.rows.length (u.cols.map fun _ => (none : Cell))⟩ := by
    unfold smartVerticalMerge
    rw [if_neg (by simp)]
    simp only [List.tail_cons, List.headD_cons, List.foldl_cons, List.foldl_nil]
    rw [findColumnMatches_eq_nil hsc, alignTable_nil]
    rfl
  have htry : tryVerticalMerge [u, v] = some
      ⟨u.cols, u.rows ++ List.replicate v.rows.length (u.cols.map fun _ => (none : Cell))⟩ := by
    unfold tryVerticalMerge
    rw [if_neg (by simp), if_pos (by simp [hcommon])]
    exact hsmart
  have hune : u.rows ≠ [] ∧ u.cols ≠ [] := by
    unfold frameEmpty at hu
    simp only [Bool.or_eq_false_iff, List.isEmpty_eq_false] at hu
    exact hu
  have hM : frameEmpty ⟨u.cols, u.rows ++
      List.replicate v.rows.length (u.cols.map fun _ => (none : Cell))⟩ = false := by
    unfold frameEmpty
    simp [hune.1, hune.2]
  unfold merge_tables
  rw [if_neg (by simp), if_neg (by simp), hfil, if_neg (by simp), htry]
  simp only [Option.elim_some, hM, Bool.not_false, if_true]

/-- C6 witness: the amended theorem applied at the two concrete
incompatible tables. -/
theorem c6_amended_witness :
    merge_tables [⟨["date"], [[some "01/02/2025"]]⟩,
                  ⟨["zzz"], [[some "apple pie xyz"], [some "b"]]⟩] = some
      ⟨(cleanFrame (standardizeCols ⟨["date"], [[some "01/02/2025"]]⟩)).cols,
       (cleanFrame (standardizeCols ⟨["date"], [[some "01/02/2025"]]⟩)).rows ++
         List.replicate
           (cleanFrame (standardizeCols ⟨["zzz"], [[some "apple pie xyz"], [some "b"]]⟩)).rows.length
           ((cleanFrame (standardizeCols ⟨["date"], [[some "01/02/2025"]]⟩)).cols.map
             fun _ => (none : Cell))⟩ :=
  c6_amended ⟨["date"], [[some "01/02/2025"]]⟩ ⟨["zzz"], [[some "apple pie xyz"], [some "b"]]⟩
    (by decide) (by decide) (by decide) (by decide)

/-! ## Claim C8: median-day inference with HIGH confidence -/

theorem parseMonthAbbrev_strftimeB {m : Nat} (h1 : 1 ≤ m) (h2 : m ≤ 12) :
    parseMonthAbbrev (strftimeB m) = some m := by
  interval_cases m <;> decide

theorem dtValid_bounds {t : PyDateTime} (h : dtValid t = true) :
    1 ≤ t.year ∧ t.year ≤ 9999 ∧ 1 ≤ t.month ∧ t.month ≤ 12 ∧ 1 ≤ t.day ∧
    t.day ≤ monthLength t.year t.month ∧ t.hour ≤ 23 ∧ t.minute ≤ 59 ∧ t.second ≤ 59 := by
  simp only [dtValid, Bool.and_eq_true, decide_eq_true_eq] at h
  tauto

theorem medianDay_mem {l : List Nat} (h : l ≠ []) : medianDay l ∈ l := by
  unfold medianDay
  have hperm : List.Perm (l.insertionSort (· ≤ ·)) l := List.perm_insertionSort _ l
  have hlen : (l.insertionSort (· ≤ ·)).length = l.length := hperm.length_eq
  have hpos : 0 < l.length := List.length_pos.mpr h
  by_cases hgt : 1 < (l.insertionSort (· ≤ ·)).length
  · rw [if_pos hgt]
    have hidx : (l.insertionSort (· ≤ ·)).length / 2 < (l.insertionSort (· ≤ ·)).length := by
      omega
    rw [List.getD_eq_getElem _ _ hidx]
    exact hperm.mem_iff.mp (List.getElem_mem _)
  · rw [if_neg hgt]
    have hidx : 0 < (l.insertionSort (· ≤ ·)).length := by omega
    rw [List.getD_eq_getElem _ _ hidx]
    exact hperm.mem_iff.mp (List.getElem_mem _)

/-- C8: for a month+year-only input whose context has parsed dates in
the same year and month, the resolver returns the code's median of
those context days (`sorted_days[len // 2]`, the exact median for the
odd-sized example) with confidence HIGH; the `min`-clamp is a no-op
because every valid context day is at most the month's length. -/
theorem c8_median_inference (now : PyDateTime) (s mn : List Char) (y : Nat)
    (ctx : List PyDateTime)
    (hsplit : monthYearSplit s = some (mn, y))
    (hvalid : ∀ d ∈ ctx, dtValid d = true)
    (hsm : ((ctx.filter fun d => d.year = y).filter
      fun d => strftimeB d.month = mn.take 3) ≠ []) :
    infer_missing_components now s ctx =
      .ok (natToChars (medianDay (((ctx.filter fun d => d.year = y).filter
        fun d => strftimeB d.month = mn.take 3).map fun d => d.day)) ++ ' ' :: s,
        Conf.HIGH) := by
  have hne : s.isEmpty = false := by
    cases s with
    | nil => simp [monthYearSplit] at hsplit
    | cons a l => rfl
  obtain ⟨d0, hd0⟩ := List.exists_mem_of_ne_nil _ hsm
  have hd0f := List.mem_filter.mp hd0
  have hd0y := List.mem_filter.mp hd0f.1
  have hd0ctx : d0 ∈ ctx := hd0y.1
  have hd0mon : strftimeB d0.month = mn.take 3 := by simpa using hd0f.2
  have hb0 := dtValid_bounds (hvalid d0 hd0ctx)
  have hm : parseMonthAbbrev (mn.take 3) = some d0.month := by
    rw [← hd0mon]
    exact parseMonthAbbrev_strftimeB hb0.2.2.1 hb0.2.2.2.1
  -- the clamp is inert: the median is a valid same-month, same-year day
  have hmed := medianDay_mem (l := ((ctx.filter fun d => d.year = y).filter
    fun d => strftimeB d.month = mn.take 3).map fun d => d.day)
    (by simpa using hsm)
  obtain ⟨d1, hd1mem, hd1day⟩ := List.mem_map.mp hmed
  have hd1f := List.mem_filter.mp hd1mem
  have hd1y := List.mem_filter.mp hd1f.1
  have hd1year : d1.year = y := by simpa using hd1y.2
  have hd1mon : strftimeB d1.month = mn.take 3 := by simpa using hd1f.2
  have hb1 := dtValid_bounds (hvalid d1 hd1y.1)
  have hmon_eq : d1.month = d0.month := by
    have h1 := parseMonthAbbrev_strftimeB hb1.2.2.1 hb1.2.2.2.1
    rw [hd1mon, hm] at h1
    exact (Option.some.inj h1).symm
  have hle : medianDay (((ctx.filter fun d => d.year = y).filter
      fun d => strftimeB d.month = mn.take 3).map fun d => d.day) ≤
      monthLength y d0.month := by
    rw [← hd1day, ← hd1year, ← hmon_eq]
    exact hb1.2.2.2.2.2.1
  rw [infer_eq_inferMonthYear hne hsplit]
  unfold inferMonthYear
  rw [if_neg (fun hc => List.ne_nil_of_mem hd0ctx (List.isEmpty_iff.mp hc)),
      if_neg (fun hc => List.ne_nil_of_mem hd0f.1 (List.isEmpty_iff.mp hc)),
      if_neg (fun hc => hsm (List.isEmpty_iff.mp hc)), hm]
  simp only [Option.elim_some]
  rw [min_eq_left hle]

/-- C8 witness: the spec's example — "Feb 2025" with context
[2025-02-05, 2025-02-09, 2025-02-28] infers day 9 (the median) with
confidence HIGH. -/
theorem c8_witness :
    infer_missing_components ⟨2026, 10, 12, 0, 0, 0⟩ ("Feb 2025".data)
      [⟨2025, 2, 5, 0, 0, 0⟩, ⟨2025, 2, 9, 0, 0, 0⟩, ⟨2025, 2, 28, 0, 0, 0⟩]
      = .ok ("9 Feb 2025".data, Conf.HIGH) := by
  have h := c8_median_inference ⟨2026, 10, 12, 0, 0, 0⟩ ("Feb 2025".data) ("Feb".data) 2025
    [⟨2025, 2, 5, 0, 0, 0⟩, ⟨2025, 2, 9, 0, 0, 0⟩, ⟨2025, 2, 28, 0, 0, 0⟩]
    (by decide) (by decide) (by decide)
  rw [h]
  decide

/-! ## Claim C1: bare month+year strings parse to none -/

/-- The regex `^[A-Za-z]{3,}\s+\d{4}$` of the claim, unfolded: at
least three letters, then whitespace, then exactly four digits. -/
def MonthYearShape (s : List Char) : Prop :=
  ∃ A W D, s = A ++ W ++ D ∧ 3 ≤ A.length ∧ (∀ c ∈ A, isAlph c = true) ∧
    W ≠ [] ∧ (∀ c ∈ W, isWs c = true) ∧ D.length = 4 ∧ (∀ c ∈ D, isDig c = true)

theorem toNat_ofNat_valid (n : Nat) (h : n < 55296) : (Char.ofNat n).toNat = n := by
  unfold Char.ofNat
  rw [dif_pos (Or.inl h)]
  unfold Char.ofNatAux Char.toNat
  rfl

theorem lowerChar_isWs_eq {c : Char} (h : isWs c = true) : lowerChar c = c := by
  rcases isWs_cases h with rfl | rfl | rfl | rfl | rfl | rfl <;> decide

theorem isWs_lowerChar_of_alpha {c : Char} (h : isAlph c = true) : isWs (lowerChar c) = false := by
  unfold lowerChar
  by_cases hu : ('A' ≤ c && c ≤ 'Z') = true
  · rw [if_pos hu]
    have hb : 65 ≤ c.toNat ∧ c.toNat ≤ 90 := by
      simp only [Bool.and_eq_true, decide_eq_true_eq] at hu
      exact hu
    have ht : (Char.ofNat (c.toNat + 32)).toNat = c.toNat + 32 :=
      toNat_ofNat_valid _ (by omega)
    rw [Bool.eq_false_iff]
    intro hw
    rcases isWs_cases hw with he | he | he | he | he | he
    all_goals
      have h2 := congrArg Char.toNat he
    all_goals rw [ht] at h2
    · rw [show (' ' : Char).toNat = 32 from rfl] at h2; omega
    · rw [show ('\t' : Char).toNat = 9 from rfl] at h2; omega
    · rw [show ('\n' : Char).toNat = 10 from rfl] at h2; omega
    · rw [show ('\x0d' : Char).toNat = 13 from rfl] at h2; omega
    · rw [show (Char.ofNat 11).toNat = 11 from rfl] at h2; omega
    · rw [show (Char.ofNat 12).toNat = 12 from rfl] at h2; omega
  · rw [if_neg hu]
    exact isWs_false_of_isAlph h

theorem ne_char_of_class {a q : Char} {p : Char → Bool} (ha : p a = false) (hq : p q = true) :
    a ≠ q := fun he => by rw [he, hq] at ha; exact absurd ha (by simp)

/-- A non-digit head kills every `%d` alternative. -/
theorem tokCands_dd_nil {a : Char} {l : List Char} (h : isDig a = false) :
    tokCands FmtTok.dd (a :: l) = [] := by
  have h3 := ne_char_of_class h (show isDig '3' = true from rfl)
  have h1 := ne_char_of_class h (show isDig '1' = true from rfl)
  have h2 := ne_char_of_class h (show isDig '2' = true from rfl)
  have h0 := ne_char_of_class h (show isDig '0' = true from rfl)
  cases l with
  | nil => simp [tokCands, h]
  | cons b t => simp [tokCands, h, h3, h1, h2, h0]

theorem tokCands_mm_nil {a : Char} {l : List Char} (h : isDig a = false) :
    tokCands FmtTok.mm (a :: l) = [] := by
  have h1 := ne_char_of_class h (show isDig '1' = true from rfl)
  have h0 := ne_char_of_class h (show isDig '0' = true from rfl)
  cases l with
  | nil => simp [tokCands, h]
  | cons b t => simp [tokCands, h, h1, h0]

theorem tokCands_yyyy_nil {a : Char} {l : List Char} (h : isDig a = false) :
    tokCands FmtTok.yyyy (a :: l) = [] := by
  simp [tokCands, List.take_cons, h]

theorem tokCands_ws_nil {a : Char} {l : List Char} (h : isWs a = false) :
    tokCands FmtTok.ws (a :: l) = [] := by
  simp [tokCands, List.takeWhile_cons, h]

/-- A head token with no candidate fails the whole match. -/
theorem matchToks_nil_cands {tk : FmtTok} {tks : List FmtTok} {l : List Char}
    {t : PyDateTime} (h : tokCands tk l = []) : matchToks (tk :: tks) l t = none := by
  simp [matchToks, h]

/-- Every `%d` candidate consumes one or two characters. -/
theorem tokCands_dd_len {l : List Char} {p : Nat × Upd} (hp : p ∈ tokCands FmtTok.dd l) :
    p.1 = 1 ∨ p.1 = 2 := by
  match l with
  | [] => simp [tokCands] at hp
  | [a] =>
    revert hp
    simp only [tokCands]
    split
    · intro hp
      simp at hp
      simp [hp]
    · intro hp
      simp at hp
  | a :: b :: t =>
    revert hp
    simp only [tokCands, List.mem_append]
    intro hp
    rcases hp with ((hp | hp) | hp) | hp <;>
      (revert hp; split <;> intro hp <;> simp at hp <;> simp [hp])

/-- One-step unfolding of the matcher on a token cons. -/
theorem matchToks_cons (tk : FmtTok) (tks : List FmtTok) (l : List Char) (t : PyDateTime) :
    matchToks (tk :: tks) l t
      = (tokCands tk l).findSome? (fun p => matchToks tks (l.drop p.1) (p.2 t)) := rfl

/-- After whitespace-then-four-digits, the format tail `\\s+ %d \\s+ %Y`
cannot match: whatever the `\\s+` consumes, `%d` takes one or two of the
four digits and the next `\\s+` then faces a digit. -/
theorem matchToks_wsddwsy {W D : List Char} (hWw : ∀ c ∈ W, isWs c = true)
    (hD4 : D.length = 4) (hDd : ∀ c ∈ D, isDig c = true) (caps : PyDateTime) :
    matchToks [FmtTok.ws, FmtTok.dd, FmtTok.ws, FmtTok.yyyy] (W ++ D) caps = none := by
  obtain ⟨d1, d2, d3, d4, rfl⟩ : ∃ d1 d2 d3 d4, D = [d1, d2, d3, d4] := by
    match D, hD4 with
    | [d1, d2, d3, d4], _ => exact ⟨d1, d2, d3, d4, rfl⟩
  have hd1 : isDig d1 = true := hDd d1 (by simp)
  have hd2 : isDig d2 = true := hDd d2 (by simp)
  have hd3 : isDig d3 = true := hDd d3 (by simp)
  rw [matchToks_cons]
  apply List.findSome?_eq_none_iff.mpr
  intro p hp
  have htw : (W ++ [d1, d2, d3, d4]).takeWhile isWs = W :=
    takeWhile_append_head_neg hWw (fun c hc => by
      rw [show ([d1, d2, d3, d4] : List Char).head? = some d1 from rfl] at hc
      injection hc with h
      rw [← h]
      exact isWs_false_of_isDig hd1)
  simp only [tokCands, htw] at hp
  obtain ⟨i, hi, rfl⟩ := List.mem_map.mp hp
  have hiW : i < W.length := List.mem_range.mp hi
  have hkle : W.length - i ≤ W.length := Nat.sub_le _ _
  rw [List.drop_append_of_le_length hkle]
  cases hWd : W.drop (W.length - i) with
  | nil =>
    rw [List.nil_append, matchToks_cons]
    apply List.findSome?_eq_none_iff.mpr
    intro q hq
    rcases tokCands_dd_len hq with h1 | h2
    · rw [h1, show ([d1, d2, d3, d4] : List Char).drop 1 = [d2, d3, d4] from rfl]
      exact matchToks_nil_cands (tokCands_ws_nil (isWs_false_of_isDig hd2))
    · rw [h2, show ([d1, d2, d3, d4] : List Char).drop 2 = [d3, d4] from rfl]
      exact matchToks_nil_cands (tokCands_ws_nil (isWs_false_of_isDig hd3))
  | cons w1 W1 =>
    have hw1 : isWs w1 = true := hWw w1 (List.mem_of_mem_drop (by rw [hWd]; simp))
    rw [List.cons_append]
    exact matchToks_nil_cands (tokCands_dd_nil (isDig_false_of_isWs hw1))

/-- The `%b %d %Y` format cannot match letters-whitespace-digits: `%b`
consumes three letters and the following `\\s+` then faces a letter, or
(when the letters are exhausted) the tail runs into `matchToks_wsddwsy`. -/
theorem matchToks_bdwy {A W D : List Char} (hA3 : 3 ≤ A.length)
    (hAa : ∀ c ∈ A, isAlph c = true) (hWw : ∀ c ∈ W, isWs c = true)
    (hD4 : D.length = 4) (hDd : ∀ c ∈ D, isDig c = true) (caps : PyDateTime) :
    matchToks [FmtTok.mabbr, FmtTok.ws, FmtTok.dd, FmtTok.ws, FmtTok.yyyy]
      (A ++ (W ++ D)) caps = none := by
  rw [matchToks_cons]
  apply List.findSome?_eq_none_iff.mpr
  intro p hp
  revert hp
  simp only [tokCands]
  split
  · intro hp
    simp only [List.mem_singleton] at hp
    subst hp
    rw [List.drop_append_of_le_length hA3]
    cases hd : A.drop 3 with
    | nil =>
      rw [List.nil_append]
      exact matchToks_wsddwsy hWw hD4 hDd _
    | cons a4 A4 =>
      have ha4 : isAlph a4 = true := hAa a4 (List.mem_of_mem_drop (by rw [hd]; simp))
      rw [List.cons_append]
      exact matchToks_nil_cands (tokCands_ws_nil (isWs_false_of_isAlph ha4))
  · intro hp
    simp at hp

/-- Every `%B` candidate consumes the length of some all-letter month
name whose lowercase form equals the lowercased consumed prefix. -/
theorem tokCands_mfull_cand {l : List Char} {p : Nat × Upd}
    (hp : p ∈ tokCands FmtTok.mfull l) :
    ∃ nm : List Char, p.1 = nm.length ∧ (∀ c ∈ nm, isAlph c = true) ∧
      pyLower (l.take nm.length) = pyLower nm := by
  simp only [tokCands] at hp
  obtain ⟨i, hi, hF⟩ := List.mem_filterMap.mp hp
  have hi12 : i < 12 := List.mem_range.mp hi
  interval_cases i <;>
    (split at hF
     · rename_i hcond
       injection hF with h
       subst h
       exact ⟨_, rfl, by decide, hcond⟩
     · exact absurd hF (by simp))

/-- The `%B %d %Y` format cannot match letters-whitespace-digits: the
month name never reaches past the letters (its lowercased characters are
letters while position `|A|` holds whitespace), so the following `\\s+`
faces a letter or the tail runs into `matchToks_wsddwsy`. -/
theorem matchToks_Bdwy {A W D : List Char}
    (hAa : ∀ c ∈ A, isAlph c = true) (hWne : W ≠ []) (hWw : ∀ c ∈ W, isWs c = true)
    (hD4 : D.length = 4) (hDd : ∀ c ∈ D, isDig c = true) (caps : PyDateTime) :
    matchToks [FmtTok.mfull, FmtTok.ws, FmtTok.dd, FmtTok.ws, FmtTok.yyyy]
      (A ++ (W ++ D)) caps = none := by
  rw [matchToks_cons]
  apply List.findSome?_eq_none_iff.mpr
  intro p hp
  obtain ⟨nm, hp1, hnma, hlow⟩ := tokCands_mfull_cand hp
  rw [hp1]
  by_cases hn : nm.length ≤ A.length
  · rw [List.drop_append_of_le_length hn]
    cases hd : A.drop nm.length with
    | nil =>
      rw [List.nil_append]
      exact matchToks_wsddwsy hWw hD4 hDd _
    | cons a' A' =>
      have ha' : isAlph a' = true := hAa a' (List.mem_of_mem_drop (by rw [hd]; simp))
      rw [List.cons_append]
      exact matchToks_nil_cands (tokCands_ws_nil (isWs_false_of_isAlph ha'))
  · exfalso
    push_neg at hn
    obtain ⟨w, W', rfl⟩ : ∃ w W', W = w :: W' := by
      cases W with
      | nil => exact absurd rfl hWne
      | cons w W' => exact ⟨w, W', rfl⟩
    have hw : isWs w = true := hWw w (by simp)
    have h1 : (pyLower ((A ++ (w :: W' ++ D)).take nm.length))[A.length]?
        = (pyLower nm)[A.length]? := by rw [hlow]
    have hAnm : A.length < nm.length := hn
    rw [pyLower, pyLower, List.getElem?_map, List.getElem?_map,
      List.getElem?_take_of_lt hAnm, List.getElem?_append_right (Nat.le_refl _),
      Nat.sub_self,
      (List.getElem?_eq_some_getElem_iff nm A.length hAnm).mpr trivial] at h1
    simp only [List.cons_append, List.getElem?_cons_zero, Option.map_some] at h1
    injection h1 with h2
    have hja : isAlph (nm.get ⟨A.length, hAnm⟩) = true :=
      hnma _ (List.getElem_mem hAnm)
    have h3 : isWs (lowerChar (nm.get ⟨A.length, hAnm⟩)) = false :=
      isWs_lowerChar_of_alpha hja
    rw [lowerChar_isWs_eq hw] at h2
    rw [show nm.get ⟨A.length, hAnm⟩ = nm[A.length] from rfl] at h3
    rw [← h2] at h3
    rw [hw] at h3
    exact absurd h3 (by simp)

/-- `pyStrptime` fails whenever the token match fails. -/
theorem pyStrptime_none {fmt : List FmtTok} {s : List Char}
    (h : matchToks fmt s ⟨1900, 1, 1, 0, 0, 0⟩ = none) : pyStrptime fmt s = none := by
  unfold pyStrptime
  rw [h]

/-- On a letters-whitespace-digits string all twelve formats of
`parse_date_flexible` fail, so it returns `none`. -/
theorem parse_date_flexible_monthYear {s : List Char} (h : MonthYearShape s) :
    parse_date_flexible s = none := by
  obtain ⟨A, W, D, rfl, hA3, hAa, hWne, hWw, hD4, hDd⟩ := h
  obtain ⟨a0, A', rfl⟩ : ∃ a0 A', A = a0 :: A' := by
    cases A with
    | nil => simp at hA3
    | cons a0 A' => exact ⟨a0, A', rfl⟩
  obtain ⟨d1, d2, d3, d4, rfl⟩ : ∃ d1 d2 d3 d4, D = [d1, d2, d3, d4] := by
    match D, hD4 with
    | [e1, e2, e3, e4], _ => exact ⟨e1, e2, e3, e4, rfl⟩
  rw [List.append_assoc]
  have ha0 : isAlph a0 = true := hAa a0 (by simp)
  have hd4 : isDig d4 = true := hDd d4 (by simp)
  have hhead : ∀ c : Char, ((a0 :: A') ++ (W ++ [d1, d2, d3, d4])).head? = some c → c = a0 := by
    intro c hc
    rw [show ((a0 :: A') ++ (W ++ [d1, d2, d3, d4])).head? = some a0 from rfl] at hc
    injection hc with h2
    exact h2.symm
  have hlast : ∀ c : Char, ((a0 :: A') ++ (W ++ [d1, d2, d3, d4])).getLast? = some c → c = d4 := by
    intro c hc
    rw [List.getLast?_append_of_ne_nil _ (by simp),
      List.getLast?_append_of_ne_nil _ (by simp),
      show ([d1, d2, d3, d4] : List Char).getLast? = some d4 from rfl] at hc
    injection hc with h2
    exact h2.symm
  have hps : pyStrip ((a0 :: A') ++ (W ++ [d1, d2, d3, d4])) = (a0 :: A') ++ (W ++ [d1, d2, d3, d4]) := by
    unfold pyStrip
    apply strip_ends_eq
    · intro c hc
      rw [hhead c hc]
      exact isWs_false_of_isAlph ha0
    · intro c hc
      rw [hlast c hc]
      exact isWs_false_of_isDig hd4
  have hsq : stripQuotes ((a0 :: A') ++ (W ++ [d1, d2, d3, d4])) = (a0 :: A') ++ (W ++ [d1, d2, d3, d4]) := by
    unfold stripQuotes
    apply strip_ends_eq
    · intro c hc
      rw [hhead c hc]
      have h1 : a0 ≠ '\'' := (ne_char_of_class (show isAlph '\'' = false from rfl) ha0).symm
      have h2 : a0 ≠ '"' := (ne_char_of_class (show isAlph '"' = false from rfl) ha0).symm
      simp [h1, h2]
    · intro c hc
      rw [hlast c hc]
      have h1 : d4 ≠ '\'' := (ne_char_of_class (show isDig '\'' = false from rfl) hd4).symm
      have h2 : d4 ≠ '"' := (ne_char_of_class (show isDig '"' = false from rfl) hd4).symm
      simp [h1, h2]
  have ha0d : isDig a0 = false := isDig_false_of_isAlph ha0
  have hfs : flexFormats.findSome?
      (fun f => pyStrptime f ((a0 :: A') ++ (W ++ [d1, d2, d3, d4]))) = none := by
    apply List.findSome?_eq_none_iff.mpr
    intro f hf
    fin_cases hf <;>
      apply pyStrptime_none <;>
      first
      | exact matchToks_bdwy hA3 hAa hWw hD4 hDd _
      | exact matchToks_Bdwy hAa hWne hWw hD4 hDd _
      | (rw [List.cons_append]
         first
         | exact matchToks_nil_cands (tokCands_dd_nil ha0d)
         | exact matchToks_nil_cands (tokCands_mm_nil ha0d)
         | exact matchToks_nil_cands (tokCands_yyyy_nil ha0d))
  unfold parse_date_flexible
  rw [if_neg (by simp)]
  simp only [hps, hsq, hfs]
  exact ite_self none

/-- A map that fixes every element of a list is the identity on it. -/
theorem map_id_of_mem {l : List Char} {f : Char → Char} (h : ∀ c ∈ l, f c = c) :
    l.map f = l := by
  induction l with
  | nil => rfl
  | cons a t ih =>
    simp only [List.map_cons]
    rw [h a (by simp), ih (fun c hc => h c (by simp [hc]))]

/-- A head that is neither whitespace nor a digit kills the OPay
datetime pattern (its first group is `\\d{4}`). -/
theorem opayDtMatch_head {a : Char} {l : List Char} (hw : isWs a = false)
    (hd : isDig a = false) : opayDtMatch (a :: l) = none := by
  unfold opayDtMatch
  simp [List.dropWhile_cons, hw, digRun, List.takeWhile_cons, hd]

/-- Same head condition kills the OPay date pattern (`\\d{1,2}` first). -/
theorem opayDateMatch_head {a : Char} {l : List Char} (hw : isWs a = false)
    (hd : isDig a = false) : opayDateMatch (a :: l) = none := by
  unfold opayDateMatch
  simp [List.dropWhile_cons, hw, digRun, List.takeWhile_cons, hd]

/-- Same head condition kills the Kuda datetime pattern. -/
theorem kudaDtMatch_head {a : Char} {l : List Char} (hw : isWs a = false)
    (hd : isDig a = false) : kudaDtMatch (a :: l) = none := by
  unfold kudaDtMatch
  simp [List.dropWhile_cons, hw, digRun, List.takeWhile_cons, hd]

/-- Same head condition kills the Kuda date pattern. -/
theorem kudaDateMatch_head {a : Char} {l : List Char} (hw : isWs a = false)
    (hd : isDig a = false) : kudaDateMatch (a :: l) = none := by
  unfold kudaDateMatch
  simp [List.dropWhile_cons, hw, digRun, List.takeWhile_cons, hd]

/-- Same head condition kills the time-only pattern. -/
theorem timeOnlyMatch_head {a : Char} {l : List Char} (hw : isWs a = false)
    (hd : isDig a = false) : timeOnlyMatch (a :: l) = none := by
  unfold timeOnlyMatch
  simp [List.dropWhile_cons, hw, digRun, List.takeWhile_cons, hd]

/-- On a letters-whitespace-digits string the month+year regex matches,
with the letter run as group 1. -/
theorem monthYearSplit_shape {A W D : List Char} (hA3 : 3 ≤ A.length)
    (hAa : ∀ c ∈ A, isAlph c = true) (hWne : W ≠ []) (hWw : ∀ c ∈ W, isWs c = true)
    (hD4 : D.length = 4) (hDd : ∀ c ∈ D, isDig c = true) :
    monthYearSplit (A ++ (W ++ D)) = some (A, digitsVal D) := by
  obtain ⟨w0, W', rfl⟩ : ∃ w0 W', W = w0 :: W' := by
    cases W with
    | nil => exact absurd rfl hWne
    | cons w0 W' => exact ⟨w0, W', rfl⟩
  obtain ⟨e1, e2, e3, e4, rfl⟩ : ∃ e1 e2 e3 e4, D = [e1, e2, e3, e4] := by
    match D, hD4 with
    | [e1, e2, e3, e4], _ => exact ⟨e1, e2, e3, e4, rfl⟩
  have hw0 : isWs w0 = true := hWw w0 (by simp)
  have he1 : isDig e1 = true := hDd e1 (by simp)
  have hta : (A ++ (w0 :: W' ++ [e1, e2, e3, e4])).takeWhile isAlph = A := by
    apply takeWhile_append_head_neg hAa
    intro c hc
    rw [show ((w0 :: W') ++ [e1, e2, e3, e4]).head? = some w0 from rfl] at hc
    injection hc with h2
    rw [← h2]
    exact isAlph_false_of_isWs hw0
  have hda : (A ++ (w0 :: W' ++ [e1, e2, e3, e4])).dropWhile isAlph
      = (w0 :: W') ++ [e1, e2, e3, e4] := by
    apply dropWhile_append_head_neg hAa
    intro c hc
    rw [show ((w0 :: W') ++ [e1, e2, e3, e4]).head? = some w0 from rfl] at hc
    injection hc with h2
    rw [← h2]
    exact isAlph_false_of_isWs hw0
  have htw : ((w0 :: W') ++ [e1, e2, e3, e4]).takeWhile isWs = w0 :: W' := by
    apply takeWhile_append_head_neg hWw
    intro c hc
    rw [show ([e1, e2, e3, e4] : List Char).head? = some e1 from rfl] at hc
    injection hc with h2
    rw [← h2]
    exact isWs_false_of_isDig he1
  have hdw : ((w0 :: W') ++ [e1, e2, e3, e4]).dropWhile isWs = [e1, e2, e3, e4] := by
    apply dropWhile_append_head_neg hWw
    intro c hc
    rw [show ([e1, e2, e3, e4] : List Char).head? = some e1 from rfl] at hc
    injection hc with h2
    rw [← h2]
    exact isWs_false_of_isDig he1
  unfold monthYearSplit
  simp only [hta, hda, htw, hdw]
  rw [if_pos]
  simp only [Bool.and_eq_true, decide_eq_true_eq, List.all_eq_true]
  refine ⟨⟨⟨by omega, by simp⟩, by simp⟩, ?_⟩
  intro c hc
  exact hDd c hc

/-- On a letters-whitespace-digits string every strategy of
`parse_date_str` up to step 5 fails structurally, and step 6's bare
month+year guard then returns `none` before pandas is ever consulted,
for every ambient pandas parser and every current date. -/
theorem parse_date_str_monthYear (today : PyDateTime)
    (pandasParse : List Char → Bool → Option PyDateTime) {s : List Char}
    (h : MonthYearShape s) : parse_date_str today pandasParse s = none := by
  obtain ⟨A, W, D, rfl, hA3, hAa, hWne, hWw, hD4, hDd⟩ := h
  rw [List.append_assoc]
  obtain ⟨a0, A', rfl⟩ : ∃ a0 A', A = a0 :: A' := by
    cases A with
    | nil => simp at hA3
    | cons a0 A' => exact ⟨a0, A', rfl⟩
  obtain ⟨d1, d2, d3, d4, rfl⟩ : ∃ d1 d2 d3 d4, D = [d1, d2, d3, d4] := by
    match D, hD4 with
    | [e1, e2, e3, e4], _ => exact ⟨e1, e2, e3, e4, rfl⟩
  have ha0 : isAlph a0 = true := hAa a0 (by simp)
  have hd4 : isDig d4 = true := hDd d4 (by simp)
  have ha0w : isWs a0 = false := isWs_false_of_isAlph ha0
  have ha0d : isDig a0 = false := isDig_false_of_isAlph ha0
  have hhead : ∀ c : Char, ((a0 :: A') ++ (W ++ [d1, d2, d3, d4])).head? = some c → c = a0 := by
    intro c hc
    rw [show ((a0 :: A') ++ (W ++ [d1, d2, d3, d4])).head? = some a0 from rfl] at hc
    injection hc with h2
    exact h2.symm
  have hlast : ∀ c : Char, ((a0 :: A') ++ (W ++ [d1, d2, d3, d4])).getLast? = some c → c = d4 := by
    intro c hc
    rw [List.getLast?_append_of_ne_nil _ (by simp),
      List.getLast?_append_of_ne_nil _ (by simp),
      show ([d1, d2, d3, d4] : List Char).getLast? = some d4 from rfl] at hc
    injection hc with h2
    exact h2.symm
  have hps : pyStrip ((a0 :: A') ++ (W ++ [d1, d2, d3, d4]))
      = (a0 :: A') ++ (W ++ [d1, d2, d3, d4]) := by
    unfold pyStrip
    apply strip_ends_eq
    · intro c hc
      rw [hhead c hc]
      exact ha0w
    · intro c hc
      rw [hlast c hc]
      exact isWs_false_of_isDig hd4
  have hlen : 8 ≤ ((a0 :: A') ++ (W ++ [d1, d2, d3, d4])).length := by
    simp only [List.length_append, List.length_cons]
    have : 1 ≤ W.length := Nat.one_le_iff_ne_zero.mpr (by
      intro h0
      exact hWne (List.eq_nil_of_length_eq_zero h0))
    simp only [List.length_cons, List.length_nil] at *
    omega
  have hlow : ∀ m : List Char, m.length ≤ 4 →
      pyLower ((a0 :: A') ++ (W ++ [d1, d2, d3, d4])) ≠ m := by
    intro m hm he
    have h2 := congrArg List.length he
    rw [pyLower, List.length_map] at h2
    omega
  have hnorm : ((a0 :: A') ++ (W ++ [d1, d2, d3, d4])).map
      (fun c => if c = '-' || c = '.' then '/' else c)
      = (a0 :: A') ++ (W ++ [d1, d2, d3, d4]) := by
    apply map_id_of_mem
    intro c hc
    have hcn : c ≠ '-' ∧ c ≠ '.' := by
      rcases List.mem_append.mp hc with hca | hcwd
      · have := hAa c hca
        exact ⟨(ne_char_of_class (show isAlph '-' = false from rfl) this).symm,
          (ne_char_of_class (show isAlph '.' = false from rfl) this).symm⟩
      · rcases List.mem_append.mp hcwd with hcw | hcd
        · have := hWw c hcw
          exact ⟨(ne_char_of_class (show isWs '-' = false from rfl) this).symm,
            (ne_char_of_class (show isWs '.' = false from rfl) this).symm⟩
        · have := hDd c hcd
          exact ⟨(ne_char_of_class (show isDig '-' = false from rfl) this).symm,
            (ne_char_of_class (show isDig '.' = false from rfl) this).symm⟩
    simp [hcn.1, hcn.2]
  have hopaydt : opayDtMatch ((a0 :: A') ++ (W ++ [d1, d2, d3, d4])) = none := by
    rw [List.cons_append]
    exact opayDtMatch_head ha0w ha0d
  have hopayd : opayDateMatch ((a0 :: A') ++ (W ++ [d1, d2, d3, d4])) = none := by
    rw [List.cons_append]
    exact opayDateMatch_head ha0w ha0d
  have hkudadt : kudaDtMatch ((a0 :: A') ++ (W ++ [d1, d2, d3, d4])) = none := by
    rw [List.cons_append]
    exact kudaDtMatch_head ha0w ha0d
  have hkudad : kudaDateMatch ((a0 :: A') ++ (W ++ [d1, d2, d3, d4])) = none := by
    rw [List.cons_append]
    exact kudaDateMatch_head ha0w ha0d
  have htime : timeOnlyMatch ((a0 :: A') ++ (W ++ [d1, d2, d3, d4])) = none := by
    rw [List.cons_append]
    exact timeOnlyMatch_head ha0w ha0d
  have hmys : (monthYearSplit ((a0 :: A') ++ (W ++ [d1, d2, d3, d4]))).isSome = true := by
    rw [monthYearSplit_shape hA3 hAa hWne hWw hD4 hDd]
    rfl
  simp only [parse_date_str]
  rw [hps]
  rw [if_neg (by
    simp only [Bool.or_eq_true, List.isEmpty_iff, decide_eq_true_eq]
    push_neg
    refine ⟨⟨⟨by simp, hlow _ (by decide)⟩, hlow _ (by decide)⟩, hlow _ (by decide)⟩)]
  rw [hnorm]
  simp only [hopaydt, hopayd, hkudadt, hkudad]
  unfold pdsStep5
  simp only [htime]
  unfold pdsStep6
  rw [if_pos hmys]

/-- C1: for every string matching `^[A-Za-z]{3,}\\s+\\d{4}$` (a month
name plus a four-digit year, with no day), both `parse_date_flexible`
and `parse_date_str` return `none` rather than a datetime with a
fabricated day — for every current date and every ambient pandas
parser. -/
theorem c1_month_year_unparseable (today : PyDateTime)
    (pandasParse : List Char → Bool → Option PyDateTime) (s : List Char)
    (h : MonthYearShape s) :
    parse_date_flexible s = none ∧ parse_date_str today pandasParse s = none :=
  ⟨parse_date_flexible_monthYear h, parse_date_str_monthYear today pandasParse h⟩

theorem c1_month_year_unparseable_witness :
    parse_date_flexible "Feb 2025".data = none ∧
      parse_date_str ⟨2025, 6, 15, 0, 0, 0⟩ (fun _ _ => none) "Feb 2025".data = none :=
  c1_month_year_unparseable ⟨2025, 6, 15, 0, 0, 0⟩ (fun _ _ => none) "Feb 2025".data
    ⟨"Feb".data, " ".data, "2025".data, by decide, by decide, by decide, by decide,
      by decide, by decide, by decide⟩

/-! ## Claim C10: time-only strings get the current date fabricated -/

/-- The regex `^(\\d{1,2}):(\\d{2}):(\\d{2})$` with the captured field
values. -/
def TimeOnlyShape (s : List Char) (hh mi se : Nat) : Prop :=
  ∃ H M S, s = H ++ ':' :: (M ++ ':' :: S) ∧ 1 ≤ H.length ∧ H.length ≤ 2 ∧
    (∀ c ∈ H, isDig c = true) ∧ M.length = 2 ∧ (∀ c ∈ M, isDig c = true) ∧
    S.length = 2 ∧ (∀ c ∈ S, isDig c = true) ∧
    digitsVal H = hh ∧ digitsVal M = mi ∧ digitsVal S = se


/-- C10: for every time-only string `H:MM:SS` whose fields form a valid
time on the current date, `parse_date_str` does not return `none` but
fabricates a full datetime by attaching the current day's date to the
given time, regardless of the ambient pandas parser. -/
theorem c10_time_only_attaches_today (today : PyDateTime)
    (pandasParse : List Char → Bool → Option PyDateTime) (s : List Char)
    (hh mi se : Nat) (hs : TimeOnlyShape s hh mi se)
    (hv : dtValid ⟨today.year, today.month, today.day, hh, mi, se⟩ = true) :
    parse_date_str today pandasParse s
      = some ⟨today.year, today.month, today.day, hh, mi, se⟩ := by
  obtain ⟨H, M, S, rfl, hH1, hH2, hHd, hM2, hMd, hS2, hSd, hhv, hmv, hsv⟩ := hs
  subst hhv
  subst hmv
  subst hsv
  obtain ⟨m1, m2, rfl⟩ : ∃ m1 m2, M = [m1, m2] := by
    match M, hM2 with
    | [m1, m2], _ => exact ⟨m1, m2, rfl⟩
  obtain ⟨s1, s2, rfl⟩ : ∃ s1 s2, S = [s1, s2] := by
    match S, hS2 with
    | [s1, s2], _ => exact ⟨s1, s2, rfl⟩
  have hm1 : isDig m1 = true := hMd m1 (by simp)
  have hm2 : isDig m2 = true := hMd m2 (by simp)
  have hs1 : isDig s1 = true := hSd s1 (by simp)
  have hs2 : isDig s2 = true := hSd s2 (by simp)
  obtain ⟨a, rfl⟩ | ⟨a, b, rfl⟩ : (∃ a, H = [a]) ∨ (∃ a b, H = [a, b]) := by
    match H, hH1, hH2 with
    | [a], _, _ => exact Or.inl ⟨a, rfl⟩
    | [a, b], _, _ => exact Or.inr ⟨a, b, rfl⟩
  · have ha : isDig a = true := hHd a (by simp)
    show parse_date_str today pandasParse [a, ':', m1, m2, ':', s1, s2] = _
    have hps : pyStrip [a, ':', m1, m2, ':', s1, s2] = [a, ':', m1, m2, ':', s1, s2] := by
      unfold pyStrip
      apply strip_ends_eq
      · intro c hc
        rw [show ([a, ':', m1, m2, ':', s1, s2] : List Char).head? = some a from rfl] at hc
        injection hc with h2
        rw [← h2]
        exact isWs_false_of_isDig ha
      · intro c hc
        rw [show ([a, ':', m1, m2, ':', s1, s2] : List Char).getLast? = some s2 from rfl] at hc
        injection hc with h2
        rw [← h2]
        exact isWs_false_of_isDig hs2
    have hnorm : ([a, ':', m1, m2, ':', s1, s2] : List Char).map
        (fun c => if c = '-' || c = '.' then '/' else c) = [a, ':', m1, m2, ':', s1, s2] := by
      apply map_id_of_mem
      intro c hc
      have hcd : c = ':' ∨ isDig c = true := by
        simp only [List.mem_cons, List.not_mem_nil, or_false] at hc
        rcases hc with rfl | rfl | rfl | rfl | rfl | rfl | rfl
        · right; exact ha
        · left; rfl
        · right; exact hm1
        · right; exact hm2
        · left; rfl
        · right; exact hs1
        · right; exact hs2
      rcases hcd with rfl | hd
      · rfl
      · simp [(ne_char_of_class (show isDig '-' = false from rfl) hd).symm,
          (ne_char_of_class (show isDig '.' = false from rfl) hd).symm]
    have hodt : opayDtMatch [a, ':', m1, m2, ':', s1, s2] = none := by
      unfold opayDtMatch
      simp [digRun, wsRun, List.takeWhile_cons, List.dropWhile_cons, ha, hm1, hm2, hs1, hs2,
        isWs_false_of_isDig ha, show isWs ':' = false from rfl, show isDig ':' = false from rfl]
    have hod : opayDateMatch [a, ':', m1, m2, ':', s1, s2] = none := by
      unfold opayDateMatch
      simp [digRun, wsRun, List.takeWhile_cons, List.dropWhile_cons, ha, hm1, hm2, hs1, hs2,
        isWs_false_of_isDig ha, show isWs ':' = false from rfl, show isDig ':' = false from rfl]
    have hkdt : kudaDtMatch [a, ':', m1, m2, ':', s1, s2] = none := by
      unfold kudaDtMatch
      simp [digRun, wsRun, List.takeWhile_cons, List.dropWhile_cons, ha, hm1, hm2, hs1, hs2,
        isWs_false_of_isDig ha, show isWs ':' = false from rfl, show isDig ':' = false from rfl,
        show (':' : Char) ≠ '/' from by decide]
    have hkd : kudaDateMatch [a, ':', m1, m2, ':', s1, s2] = none := by
      unfold kudaDateMatch
      simp [digRun, wsRun, List.takeWhile_cons, List.dropWhile_cons, ha, hm1, hm2, hs1, hs2,
        isWs_false_of_isDig ha, show isWs ':' = false from rfl, show isDig ':' = false from rfl,
        show (':' : Char) ≠ '/' from by decide]
    have htm : timeOnlyMatch [a, ':', m1, m2, ':', s1, s2]
        = some (digitsVal [a], digitsVal [m1, m2], digitsVal [s1, s2]) := by
      unfold timeOnlyMatch
      simp [digRun, wsRun, List.takeWhile_cons, List.dropWhile_cons, ha, hm1, hm2, hs1, hs2,
        isWs_false_of_isDig ha, show isWs ':' = false from rfl, show isDig ':' = false from rfl]
    simp only [parse_date_str]
    rw [hps]
    rw [if_neg (by
      simp only [Bool.or_eq_true, List.isEmpty_iff, decide_eq_true_eq]
      push_neg
      refine ⟨⟨⟨by simp, ?_⟩, ?_⟩, ?_⟩ <;>
        (intro he
         have h2 := congrArg List.length he
         simp [pyLower] at h2))]
    rw [hnorm]
    simp only [hodt, hod, hkdt, hkd]
    unfold pdsStep5
    simp only [htm]
    rw [if_pos hv]
  · have ha : isDig a = true := hHd a (by simp)
    have hb : isDig b = true := hHd b (by simp)
    show parse_date_str today pandasParse [a, b, ':', m1, m2, ':', s1, s2] = _
    have hps : pyStrip [a, b, ':', m1, m2, ':', s1, s2] = [a, b, ':', m1, m2, ':', s1, s2] := by
      unfold pyStrip
      apply strip_ends_eq
      · intro c hc
        rw [show ([a, b, ':', m1, m2, ':', s1, s2] : List Char).head? = some a from rfl] at hc
        injection hc with h2
        rw [← h2]
        exact isWs_false_of_isDig ha
      · intro c hc
        rw [show ([a, b, ':', m1, m2, ':', s1, s2] : List Char).getLast? = some s2 from rfl] at hc
        injection hc with h2
        rw [← h2]
        exact isWs_false_of_isDig hs2
    have hnorm : ([a, b, ':', m1, m2, ':', s1, s2] : List Char).map
        (fun c => if c = '-' || c = '.' then '/' else c) = [a, b, ':', m1, m2, ':', s1, s2] := by
      apply map_id_of_mem
      intro c hc
      have hcd : c = ':' ∨ isDig c = true := by
        simp only [List.mem_cons, List.not_mem_nil, or_false] at hc
        rcases hc with rfl | rfl | rfl | rfl | rfl | rfl | rfl | rfl
        · right; exact ha
        · right; exact hb
        · left; rfl
        · right; exact hm1
        · right; exact hm2
        · left; rfl
        · right; exact hs1
        · right; exact hs2
      rcases hcd with rfl | hd
      · rfl
      · simp [(ne_char_of_class (show isDig '-' = false from rfl) hd).symm,
          (ne_char_of_class (show isDig '.' = false from rfl) hd).symm]
    have hodt : opayDtMatch [a, b, ':', m1, m2, ':', s1, s2] = none := by
      unfold opayDtMatch
      simp [digRun, wsRun, List.takeWhile_cons, List.dropWhile_cons, ha, hb, hm1, hm2, hs1, hs2,
        isWs_false_of_isDig ha, show isWs ':' = false from rfl, show isDig ':' = false from rfl]
    have hod : opayDateMatch [a, b, ':', m1, m2, ':', s1, s2] = none := by
      unfold opayDateMatch
      simp [digRun, wsRun, List.takeWhile_cons, List.dropWhile_cons, ha, hb, hm1, hm2, hs1, hs2,
        isWs_false_of_isDig ha, show isWs ':' = false from rfl, show isDig ':' = false from rfl]
    have hkdt : kudaDtMatch [a, b, ':', m1, m2, ':', s1, s2] = none := by
      unfold kudaDtMatch
      simp [digRun, wsRun, List.takeWhile_cons, List.dropWhile_cons, ha, hb, hm1, hm2, hs1, hs2,
        isWs_false_of_isDig ha, show isWs ':' = false from rfl, show isDig ':' = false from rfl,
        show (':' : Char) ≠ '/' from by decide]
    have hkd : kudaDateMatch [a, b, ':', m1, m2, ':', s1, s2] = none := by
      unfold kudaDateMatch
      simp [digRun, wsRun, List.takeWhile_cons, List.dropWhile_cons, ha, hb, hm1, hm2, hs1, hs2,
        isWs_false_of_isDig ha, show isWs ':' = false from rfl, show isDig ':' = false from rfl,
        show (':' : Char) ≠ '/' from by decide]
    have htm : timeOnlyMatch [a, b, ':', m1, m2, ':', s1, s2]
        = some (digitsVal [a, b], digitsVal [m1, m2], digitsVal [s1, s2]) := by
      unfold timeOnlyMatch
      simp [digRun, wsRun, List.takeWhile_cons, List.dropWhile_cons, ha, hb, hm1, hm2, hs1, hs2,
        isWs_false_of_isDig ha, show isWs ':' = false from rfl, show isDig ':' = false from rfl]
    simp only [parse_date_str]
    rw [hps]
    rw [if_neg (by
      simp only [Bool.or_eq_true, List.isEmpty_iff, decide_eq_true_eq]
      push_neg
      refine ⟨⟨⟨by simp, ?_⟩, ?_⟩, ?_⟩ <;>
        (intro he
         have h2 := congrArg List.length he
         simp [pyLower] at h2))]
    rw [hnorm]
    simp only [hodt, hod, hkdt, hkd]
    unfold pdsStep5
    simp only [htm]
    rw [if_pos hv]

theorem c10_time_only_attaches_today_witness :
    parse_date_str ⟨2025, 6, 15, 0, 0, 0⟩ (fun _ _ => none) "23:08:23".data
      = some ⟨2025, 6, 15, 23, 8, 23⟩ :=
  c10_time_only_attaches_today ⟨2025, 6, 15, 0, 0, 0⟩ (fun _ _ => none) "23:08:23".data
    23 8 23
    ⟨['2', '3'], ['0', '8'], ['2', '3'], by decide, by decide, by decide, by decide,
      by decide, by decide, by decide, by decide, by decide, by decide, by decide⟩
    (by decide)

/-! ## Claim C3: idempotence of `fix_missing_space_date`

The four substitution sites are described uniformly as sliding-window
patterns (lists of character predicates); the three space-inserting
substitutions are related to their inputs by a space-insertion relation,
and the whitespace-collapsing substitution is analysed by its two
scanning modes. -/

def isColon (c : Char) : Bool := c = ':'

/-- The window `pat` matches at the head of the list. -/
def matchesPat : List (Char → Bool) → List Char → Bool
  | [], _ => true
  | _ :: _, [] => false
  | p :: ps, c :: cs => p c && matchesPat ps cs

/-- The window `pat` matches somewhere in the list. -/
def hasPat (pat : List (Char → Bool)) : List Char → Bool
  | [] => matchesPat pat []
  | c :: cs => matchesPat pat (c :: cs) || hasPat pat cs

/-- Site of `subA`. -/
def patA : List (Char → Bool) := [isDig, isDig, isDig, isDig, isColon, isDig, isDig]

/-- Site of `subB`. -/
def patB : List (Char → Bool) := [isDig, isDig, isDig, isDig, isAlph, isAlph, isAlph]

/-- Site of `subC`. -/
def patC : List (Char → Bool) := [isDig, isDig, isColon, isDig, isDig, isDig, isDig]

/-- Site of `subD`: two adjacent whitespace characters. -/
def patD : List (Char → Bool) := [isWs, isWs]

theorem hasPat_nil_pat (l : List Char) : hasPat [] l = true := by
  cases l <;> simp [hasPat, matchesPat]

theorem hasPat_cons_of_tail {pat : List (Char → Bool)} {l : List Char} (c : Char)
    (h : hasPat pat l = true) : hasPat pat (c :: l) = true := by
  simp [hasPat, h]

theorem matchesPat_append {pat : List (Char → Bool)} {l : List Char} (v : List Char)
    (h : matchesPat pat l = true) : matchesPat pat (l ++ v) = true := by
  induction pat generalizing l with
  | nil => simp [matchesPat]
  | cons p ps ih =>
    cases l with
    | nil => simp [matchesPat] at h
    | cons c cs =>
      simp only [matchesPat, Bool.and_eq_true] at h
      simp only [List.cons_append, matchesPat, Bool.and_eq_true]
      exact ⟨h.1, ih h.2⟩

theorem hasPat_append_left {pat : List (Char → Bool)} {l : List Char} (v : List Char)
    (h : hasPat pat l = true) : hasPat pat (l ++ v) = true := by
  induction l with
  | nil =>
    simp only [hasPat] at h
    cases pat with
    | nil => exact hasPat_nil_pat v
    | cons p ps => simp [matchesPat] at h
  | cons c cs ih =>
    simp only [hasPat, Bool.or_eq_true] at h
    rcases h with h | h
    · simp only [List.cons_append, hasPat, Bool.or_eq_true]
      exact Or.inl (matchesPat_append v h)
    · simp only [List.cons_append, hasPat, Bool.or_eq_true]
      exact Or.inr (ih h)

theorem hasPat_append_right {pat : List (Char → Bool)} {l : List Char} (u : List Char)
    (h : hasPat pat l = true) : hasPat pat (u ++ l) = true := by
  induction u with
  | nil => exact h
  | cons c cs ih => exact hasPat_cons_of_tail c ih

/-- `out` is `l` with some single spaces inserted (the effect of the
backreference-plus-space substitutions). -/
inductive SpIns : List Char → List Char → Prop
  | nil : SpIns [] []
  | cons (c : Char) {l out : List Char} : SpIns l out → SpIns (c :: l) (c :: out)
  | ins {l out : List Char} : SpIns l out → SpIns l (' ' :: out)

theorem spins_refl (l : List Char) : SpIns l l := by
  induction l with
  | nil => exact SpIns.nil
  | cons c cs ih => exact SpIns.cons c ih

theorem subA_spins (l : List Char) : SpIns l (subA l) := by
  induction l using subA.induct with
  | case1 => exact SpIns.nil
  | case2 a => exact SpIns.cons a SpIns.nil
  | case3 a b rest hc ih => rw [subA, if_pos hc]; exact SpIns.cons a (SpIns.cons b (SpIns.ins ih))
  | case4 a b rest hc ih => rw [subA, if_neg hc]; exact SpIns.cons a ih

theorem subB_spins (l : List Char) : SpIns l (subB l) := by
  induction l using subB.induct with
  | case1 a b c d rest hc ih =>
    rw [subB, if_pos hc]
    exact SpIns.cons a (SpIns.cons b (SpIns.cons c (SpIns.cons d (SpIns.ins ih))))
  | case2 a b c d rest hc ih =>
    rw [subB, if_neg hc]
    exact SpIns.cons a ih
  | case3 l h =>
    rw [show subB l = l from by
      cases l with
      | nil => rfl
      | cons x xs =>
        cases xs with
        | nil => rfl
        | cons y ys =>
          cases ys with
          | nil => rfl
          | cons z zs =>
            cases zs with
            | nil => rfl
            | cons w ws => exact absurd rfl (h x y z w ws)]
    exact spins_refl l

theorem subC_spins (l : List Char) : SpIns l (subC l) := by
  induction l using subC.induct with
  | case1 a b c d e rest hc ih =>
    rw [subC, if_pos hc]
    exact SpIns.cons a (SpIns.cons b (SpIns.cons c (SpIns.cons d (SpIns.cons e (SpIns.ins ih)))))
  | case2 a b c d e rest hc ih =>
    rw [subC, if_neg hc]
    exact SpIns.cons a ih
  | case3 l h =>
    rw [show subC l = l from by
      cases l with
      | nil => rfl
      | cons x xs =>
        cases xs with
        | nil => rfl
        | cons y ys =>
          cases ys with
          | nil => rfl
          | cons z zs =>
            cases zs with
            | nil => rfl
            | cons w ws =>
              cases ws with
              | nil => rfl
              | cons v vs => exact absurd rfl (h x y z w v vs)]
    exact spins_refl l

/-- A space-rejecting window that matches on the output of a space
insertion also matches on its input. -/
theorem spins_matchesPat {pat : List (Char → Bool)} (hsp : ∀ p ∈ pat, p ' ' = false)
    {l out : List Char} (h : SpIns l out) (hm : matchesPat pat out = true) :
    matchesPat pat l = true := by
  induction h generalizing pat with
  | nil => exact hm
  | cons c hrec ih =>
    cases pat with
    | nil => exact rfl
    | cons p ps =>
      simp only [matchesPat, Bool.and_eq_true] at hm ⊢
      exact ⟨hm.1, ih (fun q hq => hsp q (by simp [hq])) hm.2⟩
  | ins hrec ih =>
    cases pat with
    | nil => exact rfl
    | cons p ps =>
      simp only [matchesPat, Bool.and_eq_true] at hm
      rw [hsp p (by simp)] at hm
      exact absurd hm.1 (by simp)

/-- A space-rejecting window present in the output of a space insertion
is present in its input. -/
theorem spins_hasPat {pat : List (Char → Bool)} (hsp : ∀ p ∈ pat, p ' ' = false)
    {l out : List Char} (h : SpIns l out) (hm : hasPat pat out = true) :
    hasPat pat l = true := by
  induction h with
  | nil => exact hm
  | cons c hrec ih =>
    simp only [hasPat, Bool.or_eq_true] at hm ⊢
    rcases hm with hm | hm
    · exact Or.inl (spins_matchesPat hsp (SpIns.cons c hrec) hm)
    · exact Or.inr (ih hm)
  | ins hrec ih =>
    simp only [hasPat, Bool.or_eq_true] at hm
    rcases hm with hm | hm
    · cases pat with
      | nil =>
        rename_i l2 out2
        exact hasPat_nil_pat l2
      | cons p ps =>
        simp only [matchesPat, Bool.and_eq_true] at hm
        rw [hsp p (by simp)] at hm
        exact absurd hm.1 (by simp)
    · exact ih hm

theorem matchesPat_lookA (r : List Char) :
    matchesPat [isDig, isDig, isColon, isDig, isDig] r = lookA r := by
  match r with
  | [] => rfl
  | [c] => simp [matchesPat, lookA]
  | [c, d] => simp [matchesPat, lookA]
  | [c, d, x] => simp [matchesPat, lookA]
  | [c, d, x, e] => simp [matchesPat, lookA]
  | c :: d :: x :: e :: f :: t => simp [matchesPat, lookA, isColon, Bool.and_assoc]

theorem matchesPat_patA (a b : Char) (r : List Char) :
    matchesPat patA (a :: b :: r) = (isDig a && isDig b && lookA r) := by
  simp only [patA, matchesPat, ← matchesPat_lookA, Bool.and_assoc]

theorem matchesPat_lookB (r : List Char) :
    matchesPat [isAlph, isAlph, isAlph] r = lookB r := by
  match r with
  | [] => rfl
  | [x] => simp [matchesPat, lookB]
  | [x, y] => simp [matchesPat, lookB]
  | x :: y :: z :: t => simp [matchesPat, lookB, Bool.and_assoc]

theorem matchesPat_patB (a b c d : Char) (r : List Char) :
    matchesPat patB (a :: b :: c :: d :: r)
      = (isDig a && isDig b && isDig c && isDig d && lookB r) := by
  simp only [patB, matchesPat, ← matchesPat_lookB, Bool.and_assoc]

theorem matchesPat_lookC (r : List Char) :
    matchesPat [isDig, isDig] r = lookC r := by
  match r with
  | [] => rfl
  | [x] => simp [matchesPat, lookC]
  | x :: y :: t => simp [matchesPat, lookC, Bool.and_assoc]

theorem matchesPat_patC (a b c d e : Char) (r : List Char) :
    matchesPat patC (a :: b :: c :: d :: e :: r)
      = (isDig a && isDig b && isColon c && isDig d && isDig e && lookC r) := by
  simp only [patC, matchesPat, ← matchesPat_lookC, Bool.and_assoc]

theorem patA_sp : ∀ p ∈ patA, p ' ' = false := by
  intro p hp
  simp only [patA, List.mem_cons, List.not_mem_nil, or_false] at hp
  rcases hp with rfl | rfl | rfl | rfl | rfl | rfl | rfl <;> rfl

theorem patB_sp : ∀ p ∈ patB, p ' ' = false := by
  intro p hp
  simp only [patB, List.mem_cons, List.not_mem_nil, or_false] at hp
  rcases hp with rfl | rfl | rfl | rfl | rfl | rfl | rfl <;> rfl

theorem patC_sp : ∀ p ∈ patC, p ' ' = false := by
  intro p hp
  simp only [patC, List.mem_cons, List.not_mem_nil, or_false] at hp
  rcases hp with rfl | rfl | rfl | rfl | rfl | rfl | rfl <;> rfl

/-- Space insertion cannot create a space-rejecting site. -/
theorem hasPat_spins_false {pat : List (Char → Bool)} (hsp : ∀ p ∈ pat, p ' ' = false)
    {l out : List Char} (hins : SpIns l out) (h : hasPat pat l = false) :
    hasPat pat out = false := by
  rw [Bool.eq_false_iff]
  intro h'
  have h2 := spins_hasPat hsp hins h'
  rw [h] at h2
  exact absurd h2 (by simp)

/-- `subA` leaves no site of its own pattern behind. -/
theorem hasPat_patA_subA (l : List Char) : hasPat patA (subA l) = false := by
  induction l using subA.induct with
  | case1 => simp [subA, hasPat, matchesPat, patA]
  | case2 a => simp [subA, hasPat, matchesPat, patA]
  | case3 a b rest hc ih =>
    rw [subA, if_pos hc]
    simp only [hasPat, matchesPat, patA, show isDig ' ' = false from rfl,
      Bool.false_and, Bool.and_false, Bool.false_or]
    simpa [patA] using ih
  | case4 a b rest hc ih =>
    rw [subA, if_neg hc]
    have h1 : matchesPat patA (a :: subA (b :: rest)) = false := by
      rw [Bool.eq_false_iff]
      intro h'
      have h2 := spins_matchesPat patA_sp (SpIns.cons a (subA_spins (b :: rest))) h'
      rw [matchesPat_patA] at h2
      exact hc h2
    simp [hasPat, h1, ih]

/-- `subB` leaves no site of its own pattern behind. -/
theorem hasPat_patB_subB (l : List Char) : hasPat patB (subB l) = false := by
  induction l using subB.induct with
  | case1 a b c d rest hc ih =>
    rw [subB, if_pos hc]
    simp only [hasPat, matchesPat, patB, show isDig ' ' = false from rfl,
      show isAlph ' ' = false from rfl, Bool.false_and, Bool.and_false, Bool.false_or]
    simpa [patB] using ih
  | case2 a b c d rest hc ih =>
    rw [subB, if_neg hc]
    have h1 : matchesPat patB (a :: subB (b :: c :: d :: rest)) = false := by
      rw [Bool.eq_false_iff]
      intro h'
      have h2 := spins_matchesPat patB_sp (SpIns.cons a (subB_spins (b :: c :: d :: rest))) h'
      rw [matchesPat_patB] at h2
      exact hc h2
    simp [hasPat, h1, ih]
  | case3 l h =>
    cases l with
    | nil => simp [subB, hasPat, matchesPat, patB]
    | cons x xs =>
      cases xs with
      | nil => simp [subB, hasPat, matchesPat, patB]
      | cons y ys =>
        cases ys with
        | nil => simp [subB, hasPat, matchesPat, patB]
        | cons z zs =>
          cases zs with
          | nil => simp [subB, hasPat, matchesPat, patB]
          | cons w ws => exact absurd rfl (h x y z w ws)

/-- `subC` leaves no site of its own pattern behind. -/
theorem hasPat_patC_subC (l : List Char) : hasPat patC (subC l) = false := by
  induction l using subC.induct with
  | case1 a b c d e rest hc ih =>
    rw [subC, if_pos hc]
    simp only [hasPat, matchesPat, patC, show isDig ' ' = false from rfl,
      show isColon ' ' = false from rfl, Bool.false_and, Bool.and_false, Bool.false_or]
    simpa [patC] using ih
  | case2 a b c d e rest hc ih =>
    rw [subC, if_neg hc]
    have h1 : matchesPat patC (a :: subC (b :: c :: d :: e :: rest)) = false := by
      rw [Bool.eq_false_iff]
      intro h'
      have h2 := spins_matchesPat patC_sp
        (SpIns.cons a (subC_spins (b :: c :: d :: e :: rest))) h'
      rw [matchesPat_patC] at h2
      exact hc h2
    simp [hasPat, h1, ih]
  | case3 l h =>
    cases l with
    | nil => simp [subC, hasPat, matchesPat, patC]
    | cons x xs =>
      cases xs with
      | nil => simp [subC, hasPat, matchesPat, patC]
      | cons y ys =>
        cases ys with
        | nil => simp [subC, hasPat, matchesPat, patC]
        | cons z zs =>
          cases zs with
          | nil => simp [subC, hasPat, matchesPat, patC]
          | cons w ws =>
            cases ws with
            | nil => simp [subC, hasPat, matchesPat, patC]
            | cons v vs => exact absurd rfl (h x y z w v vs)

/-- In consuming mode the collapser emits a non-whitespace head. -/
theorem subDGo_true_head (l : List Char) :
    ∀ c, (subDGo true l).head? = some c → isWs c = false := by
  induction l with
  | nil => intro c hc; simp [subDGo] at hc
  | cons a rest ih =>
    intro c hc
    rw [subDGo] at hc
    by_cases hw : isWs a = true
    · rw [if_pos hw] at hc
      exact ih c hc
    · rw [if_neg hw] at hc
      simp only [List.head?_cons, Option.some.injEq] at hc
      rw [← hc]
      exact Bool.eq_false_iff.mpr hw

/-- In scanning mode the collapser's head has the whitespace class of
the input head. -/
theorem subDGo_false_head (x : Char) (r : List Char) :
    ∀ c, (subDGo false (x :: r)).head? = some c → isWs c = isWs x := by
  intro c hc
  cases r with
  | nil =>
    simp only [subDGo, List.head?_cons, Option.some.injEq] at hc
    rw [← hc]
  | cons b rest =>
    rw [subDGo] at hc
    by_cases hw : (isWs x && isWs b) = true
    · rw [if_pos hw] at hc
      simp only [List.head?_cons, Option.some.injEq] at hc
      rw [← hc]
      simp only [Bool.and_eq_true] at hw
      rw [hw.1]
      rfl
    · rw [if_neg hw] at hc
      simp only [List.head?_cons, Option.some.injEq] at hc
      rw [← hc]

/-- Scanning mode never produces the empty list on a nonempty input. -/
theorem subDGo_false_ne_nil (x : Char) (r : List Char) : subDGo false (x :: r) ≠ [] := by
  cases r with
  | nil => simp [subDGo]
  | cons b rest =>
    rw [subDGo]
    by_cases hw : (isWs x && isWs b) = true
    · rw [if_pos hw]; simp
    · rw [if_neg hw]; simp

/-- A whitespace-rejecting window that matches on the scanning-mode
output matches on the input. -/
theorem matchesPat_subDGo_false {ps : List (Char → Bool)}
    (hws : ∀ p ∈ ps, ∀ c, isWs c = true → p c = false) :
    ∀ l, matchesPat ps (subDGo false l) = true → matchesPat ps l = true := by
  intro l
  induction l generalizing ps with
  | nil => intro h; exact h
  | cons a tail ih =>
    intro h
    cases tail with
    | nil => exact h
    | cons b rest =>
      rw [subDGo] at h
      by_cases hw : (isWs a && isWs b) = true
      · rw [if_pos hw] at h
        cases ps with
        | nil => rfl
        | cons p ps2 =>
          simp only [matchesPat, Bool.and_eq_true] at h
          rw [hws p (by simp) ' ' rfl] at h
          exact absurd h.1 (by simp)
      · rw [if_neg hw] at h
        cases ps with
        | nil => rfl
        | cons p ps2 =>
          simp only [matchesPat, Bool.and_eq_true] at h ⊢
          exact ⟨h.1, ih (fun q hq => hws q (by simp [hq])) h.2⟩

/-- A whitespace-rejecting window that matches on the collapser's output
is present somewhere in the input. -/
theorem matchesPat_subDGo {ps : List (Char → Bool)}
    (hws : ∀ p ∈ ps, ∀ c, isWs c = true → p c = false) :
    ∀ (l : List Char) (m : Bool), matchesPat ps (subDGo m l) = true → hasPat ps l = true := by
  intro l
  induction l with
  | nil =>
    intro m h
    cases ps with
    | nil => exact hasPat_nil_pat []
    | cons p ps2 => cases m <;> simp [subDGo, matchesPat] at h
  | cons a tail ih =>
    intro m h
    cases m with
    | true =>
      rw [subDGo] at h
      by_cases hw : isWs a = true
      · rw [if_pos hw] at h
        exact hasPat_cons_of_tail a (ih true h)
      · rw [if_neg hw] at h
        cases ps with
        | nil => exact hasPat_nil_pat _
        | cons p ps2 =>
          simp only [matchesPat, Bool.and_eq_true] at h
          have h2 := matchesPat_subDGo_false (fun q hq => hws q (by simp [hq])) tail h.2
          simp only [hasPat, Bool.or_eq_true]
          exact Or.inl (by simp only [matchesPat, Bool.and_eq_true]; exact ⟨h.1, h2⟩)
    | false =>
      cases tail with
      | nil =>
        rw [show subDGo false [a] = [a] from rfl] at h
        simp only [hasPat, Bool.or_eq_true]
        exact Or.inl h
      | cons b rest =>
        rw [subDGo] at h
        by_cases hw : (isWs a && isWs b) = true
        · rw [if_pos hw] at h
          cases ps with
          | nil => exact hasPat_nil_pat _
          | cons p ps2 =>
            simp only [matchesPat, Bool.and_eq_true] at h
            rw [hws p (by simp) ' ' rfl] at h
            exact absurd h.1 (by simp)
        · rw [if_neg hw] at h
          cases ps with
          | nil => exact hasPat_nil_pat _
          | cons p ps2 =>
            simp only [matchesPat, Bool.and_eq_true] at h
            have h2 := matchesPat_subDGo_false (fun q hq => hws q (by simp [hq])) (b :: rest) h.2
            simp only [hasPat, Bool.or_eq_true]
            exact Or.inl (by simp only [matchesPat, Bool.and_eq_true]; exact ⟨h.1, h2⟩)

/-- A whitespace-rejecting window present in the collapser's output is
present in the input. -/
theorem hasPat_subDGo {ps : List (Char → Bool)}
    (hws : ∀ p ∈ ps, ∀ c, isWs c = true → p c = false) :
    ∀ (l : List Char) (m : Bool), hasPat ps (subDGo m l) = true → hasPat ps l = true := by
  intro l
  induction l with
  | nil => intro m h; cases m <;> exact h
  | cons a tail ih =>
    intro m h
    cases m with
    | true =>
      rw [subDGo] at h
      by_cases hw : isWs a = true
      · rw [if_pos hw] at h
        exact hasPat_cons_of_tail a (ih true h)
      · rw [if_neg hw] at h
        simp only [hasPat, Bool.or_eq_true] at h
        rcases h with h | h
        · have h2 : matchesPat ps (subDGo true (a :: tail)) = true := by
            rw [subDGo, if_neg hw]
            exact h
          exact matchesPat_subDGo hws (a :: tail) true h2
        · exact hasPat_cons_of_tail a (ih false h)
    | false =>
      cases tail with
      | nil => exact h
      | cons b rest =>
        rw [subDGo] at h
        by_cases hw : (isWs a && isWs b) = true
        · rw [if_pos hw] at h
          simp only [hasPat, Bool.or_eq_true] at h
          rcases h with h | h
          · cases ps with
            | nil => exact hasPat_nil_pat _
            | cons p ps2 =>
              simp only [matchesPat, Bool.and_eq_true] at h
              rw [hws p (by simp) ' ' rfl] at h
              exact absurd h.1 (by simp)
          · have hb : isWs b = true := by
              simp only [Bool.and_eq_true] at hw
              exact hw.2
            have h2 : subDGo true (b :: rest) = subDGo true rest := by
              rw [subDGo, if_pos hb]
            rw [← h2] at h
            exact hasPat_cons_of_tail a (ih true h)
        · rw [if_neg hw] at h
          simp only [hasPat, Bool.or_eq_true] at h
          rcases h with h | h
          · have h2 : matchesPat ps (subDGo false (a :: b :: rest)) = true := by
              rw [subDGo, if_neg hw]
              exact h
            exact matchesPat_subDGo hws (a :: b :: rest) false h2
          · exact hasPat_cons_of_tail a (ih false h)

/-- The collapser's output never contains two adjacent whitespace
characters. -/
theorem hasPat_patD_subDGo : ∀ (l : List Char) (m : Bool), hasPat patD (subDGo m l) = false := by
  intro l
  induction l with
  | nil => intro m; cases m <;> simp [subDGo, hasPat, matchesPat, patD]
  | cons a tail ih =>
    intro m
    cases m with
    | true =>
      rw [subDGo]
      by_cases hw : isWs a = true
      · rw [if_pos hw]
        exact ih true
      · rw [if_neg hw]
        simp only [hasPat, Bool.or_eq_false_iff]
        refine ⟨?_, ih false⟩
        simp [matchesPat, patD, Bool.eq_false_iff.mpr hw]
    | false =>
      cases tail with
      | nil => simp [subDGo, hasPat, matchesPat, patD]
      | cons b rest =>
        rw [subDGo]
        by_cases hw : (isWs a && isWs b) = true
        · rw [if_pos hw]
          have hb : isWs b = true := by
            simp only [Bool.and_eq_true] at hw
            exact hw.2
          have htail : hasPat patD (subDGo true rest) = false := by
            have h2 := ih true
            rw [subDGo, if_pos hb] at h2
            exact h2
          simp only [hasPat, Bool.or_eq_false_iff]
          refine ⟨?_, htail⟩
          simp only [patD, matchesPat, show isWs ' ' = true from rfl, Bool.true_and]
          cases hX : subDGo true rest with
          | nil => simp [matchesPat]
          | cons x xs =>
            have hx : isWs x = false := subDGo_true_head rest x (by rw [hX]; rfl)
            simp [matchesPat, hx]
        · rw [if_neg hw]
          simp only [hasPat, Bool.or_eq_false_iff]
          refine ⟨?_, ih false⟩
          simp only [patD, matchesPat]
          cases hX : subDGo false (b :: rest) with
          | nil => exact absurd hX (subDGo_false_ne_nil b rest)
          | cons x xs =>
            have hx : isWs x = isWs b := subDGo_false_head b rest x (by rw [hX]; rfl)
            simp only [matchesPat, hx, Bool.and_true]
            exact Bool.eq_false_iff.mpr hw

/-- Without a double-whitespace site the collapser is the identity. -/
theorem subD_id {l : List Char} (h : hasPat patD l = false) : subD l = l := by
  unfold subD
  induction l with
  | nil => rfl
  | cons a tail ih =>
    cases tail with
    | nil => rfl
    | cons b rest =>
      simp only [hasPat, Bool.or_eq_false_iff] at h
      rw [subDGo]
      have hw : (isWs a && isWs b) = false := by
        have h2 := h.1
        simp only [patD, matchesPat, Bool.and_true] at h2
        exact h2
      rw [if_neg (by rw [hw]; simp)]
      have htail : hasPat patD (b :: rest) = false := by
        simp only [hasPat, Bool.or_eq_false_iff]
        exact ⟨h.2.1, h.2.2⟩
      rw [ih htail]

theorem patA_wsr : ∀ p ∈ patA, ∀ c, isWs c = true → p c = false := by
  intro p hp c hc
  simp only [patA, List.mem_cons, List.not_mem_nil, or_false] at hp
  have hd := isDig_false_of_isWs hc
  have hcol : isColon c = false := by
    have : c ≠ ':' := (ne_char_of_class (show isWs ':' = false from rfl) hc).symm
    simp [isColon, this]
  rcases hp with rfl | rfl | rfl | rfl | rfl | rfl | rfl <;> first | exact hd | exact hcol

theorem patB_wsr : ∀ p ∈ patB, ∀ c, isWs c = true → p c = false := by
  intro p hp c hc
  simp only [patB, List.mem_cons, List.not_mem_nil, or_false] at hp
  have hd := isDig_false_of_isWs hc
  have ha := isAlph_false_of_isWs hc
  rcases hp with rfl | rfl | rfl | rfl | rfl | rfl | rfl <;> first | exact hd | exact ha

theorem patC_wsr : ∀ p ∈ patC, ∀ c, isWs c = true → p c = false := by
  intro p hp c hc
  simp only [patC, List.mem_cons, List.not_mem_nil, or_false] at hp
  have hd := isDig_false_of_isWs hc
  have hcol : isColon c = false := by
    have : c ≠ ':' := (ne_char_of_class (show isWs ':' = false from rfl) hc).symm
    simp [isColon, this]
  rcases hp with rfl | rfl | rfl | rfl | rfl | rfl | rfl <;> first | exact hd | exact hcol

/-- Whitespace-rejecting site-freeness survives the collapser. -/
theorem hasPat_subD_false {pat : List (Char → Bool)}
    (hws : ∀ p ∈ pat, ∀ c, isWs c = true → p c = false) {l : List Char}
    (h : hasPat pat l = false) : hasPat pat (subD l) = false := by
  rw [Bool.eq_false_iff]
  intro h'
  have h2 := hasPat_subDGo hws l false h'
  rw [h] at h2
  exact absurd h2 (by simp)

/-- Without a site of its pattern, `subA` is the identity. -/
theorem subA_id {l : List Char} (h : hasPat patA l = false) : subA l = l := by
  induction l using subA.induct with
  | case1 => rfl
  | case2 a => rfl
  | case3 a b rest hc ih =>
    exfalso
    have hm : matchesPat patA (a :: b :: rest) = true := by
      rw [matchesPat_patA]
      exact hc
    rw [show hasPat patA (a :: b :: rest)
        = (matchesPat patA (a :: b :: rest) || hasPat patA (b :: rest)) from rfl, hm] at h
    simp at h
  | case4 a b rest hc ih =>
    rw [subA, if_neg hc]
    have htail : hasPat patA (b :: rest) = false := by
      rw [show hasPat patA (a :: b :: rest)
          = (matchesPat patA (a :: b :: rest) || hasPat patA (b :: rest)) from rfl] at h
      exact (Bool.or_eq_false_iff.mp h).2
    rw [ih htail]

/-- Without a site of its pattern, `subB` is the identity. -/
theorem subB_id {l : List Char} (h : hasPat patB l = false) : subB l = l := by
  induction l using subB.induct with
  | case1 a b c d rest hc ih =>
    exfalso
    have hm : matchesPat patB (a :: b :: c :: d :: rest) = true := by
      rw [matchesPat_patB]
      exact hc
    rw [show hasPat patB (a :: b :: c :: d :: rest)
        = (matchesPat patB (a :: b :: c :: d :: rest)
          || hasPat patB (b :: c :: d :: rest)) from rfl, hm] at h
    simp at h
  | case2 a b c d rest hc ih =>
    rw [subB, if_neg hc]
    have htail : hasPat patB (b :: c :: d :: rest) = false := by
      rw [show hasPat patB (a :: b :: c :: d :: rest)
          = (matchesPat patB (a :: b :: c :: d :: rest)
            || hasPat patB (b :: c :: d :: rest)) from rfl] at h
      exact (Bool.or_eq_false_iff.mp h).2
    rw [ih htail]
  | case3 l hni =>
    cases l with
    | nil => rfl
    | cons x xs =>
      cases xs with
      | nil => rfl
      | cons y ys =>
        cases ys with
        | nil => rfl
        | cons z zs =>
          cases zs with
          | nil => rfl
          | cons w ws => exact absurd rfl (hni x y z w ws)

/-- Without a site of its pattern, `subC` is the identity. -/
theorem subC_id {l : List Char} (h : hasPat patC l = false) : subC l = l := by
  induction l using subC.induct with
  | case1 a b c d e rest hc ih =>
    exfalso
    have hm : matchesPat patC (a :: b :: c :: d :: e :: rest) = true := by
      rw [matchesPat_patC]
      exact hc
    rw [show hasPat patC (a :: b :: c :: d :: e :: rest)
        = (matchesPat patC (a :: b :: c :: d :: e :: rest)
          || hasPat patC (b :: c :: d :: e :: rest)) from rfl, hm] at h
    simp at h
  | case2 a b c d e rest hc ih =>
    rw [subC, if_neg hc]
    have htail : hasPat patC (b :: c :: d :: e :: rest) = false := by
      rw [show hasPat patC (a :: b :: c :: d :: e :: rest)
          = (matchesPat patC (a :: b :: c :: d :: e :: rest)
            || hasPat patC (b :: c :: d :: e :: rest)) from rfl] at h
      exact (Bool.or_eq_false_iff.mp h).2
    rw [ih htail]
  | case3 l hni =>
    cases l with
    | nil => rfl
    | cons x xs =>
      cases xs with
      | nil => rfl
      | cons y ys =>
        cases ys with
        | nil => rfl
        | cons z zs =>
          cases zs with
          | nil => rfl
          | cons w ws =>
            cases ws with
            | nil => rfl
            | cons v vs => exact absurd rfl (hni x y z w v vs)

theorem head?_dropWhile_not {p : Char → Bool} : ∀ {l : List Char} {c : Char},
    (l.dropWhile p).head? = some c → p c = false := by
  intro l
  induction l with
  | nil => intro c hc; simp at hc
  | cons a t ih =>
    intro c hc
    rw [List.dropWhile_cons] at hc
    by_cases hp : p a = true
    · rw [if_pos hp] at hc
      exact ih hc
    · rw [if_neg hp] at hc
      simp only [List.head?_cons, Option.some.injEq] at hc
      rw [← hc]
      exact Bool.eq_false_iff.mpr hp

theorem pyStrip_head_not_ws (l : List Char) :
    ∀ c, (pyStrip l).head? = some c → isWs c = false := by
  intro c hc
  unfold pyStrip at hc
  rw [List.head?_reverse] at hc
  cases hZ : (l.dropWhile isWs).reverse.dropWhile isWs with
  | nil => rw [hZ] at hc; cases hc
  | cons z zs =>
    obtain ⟨u, hu⟩ := List.dropWhile_suffix (l := (l.dropWhile isWs).reverse) isWs
    have h2 : ((l.dropWhile isWs).reverse).getLast? = some c := by
      rw [← hu, List.getLast?_append_of_ne_nil u (by rw [hZ]; simp)]
      exact hc
    rw [List.getLast?_reverse] at h2
    exact head?_dropWhile_not h2

theorem pyStrip_getLast_not_ws (l : List Char) :
    ∀ c, (pyStrip l).getLast? = some c → isWs c = false := by
  intro c hc
  unfold pyStrip at hc
  rw [List.getLast?_reverse] at hc
  exact head?_dropWhile_not hc

theorem pyStrip_idem (l : List Char) : pyStrip (pyStrip l) = pyStrip l :=
  strip_ends_eq (pyStrip_head_not_ws l) (pyStrip_getLast_not_ws l)

theorem pyStrip_isInfix (l : List Char) : pyStrip l <:+: l := by
  have h1 : l.dropWhile isWs <:+ l := List.dropWhile_suffix _
  have h2 : (l.dropWhile isWs).reverse.dropWhile isWs <:+ (l.dropWhile isWs).reverse :=
    List.dropWhile_suffix _
  have h3 : ((l.dropWhile isWs).reverse.dropWhile isWs).reverse <+: (l.dropWhile isWs) := by
    have h4 := List.reverse_prefix.mpr h2
    rwa [List.reverse_reverse] at h4
  exact (h3.isInfix).trans h1.isInfix

/-- Site-freeness survives stripping (a window in an infix is a window
of the whole). -/
theorem hasPat_pyStrip_false {pat : List (Char → Bool)} {l : List Char}
    (h : hasPat pat l = false) : hasPat pat (pyStrip l) = false := by
  rw [Bool.eq_false_iff]
  intro h'
  obtain ⟨u, v, huv⟩ := pyStrip_isInfix l
  have h2 := hasPat_append_right u (hasPat_append_left v h')
  rw [← List.append_assoc, huv] at h2
  rw [h] at h2
  exact absurd h2 (by simp)

/-- C3: the structural repair stage is idempotent — applying
`fix_missing_space_date` twice to any string yields the same result as
applying it once. -/
theorem c3_fix_missing_space_date_idempotent (s : List Char) :
    fix_missing_space_date (fix_missing_space_date s) = fix_missing_space_date s := by
  unfold fix_missing_space_date
  have hA1 : hasPat patA (subA (pyStrip s)) = false := hasPat_patA_subA (pyStrip s)
  have hA2 : hasPat patA (subB (subA (pyStrip s))) = false :=
    hasPat_spins_false patA_sp (subB_spins _) hA1
  have hA3 : hasPat patA (subC (subB (subA (pyStrip s)))) = false :=
    hasPat_spins_false patA_sp (subC_spins _) hA2
  have hA4 : hasPat patA (subD (subC (subB (subA (pyStrip s))))) = false :=
    hasPat_subD_false patA_wsr hA3
  have hA : hasPat patA (pyStrip (subD (subC (subB (subA (pyStrip s)))))) = false :=
    hasPat_pyStrip_false hA4
  have hB2 : hasPat patB (subB (subA (pyStrip s))) = false := hasPat_patB_subB _
  have hB3 : hasPat patB (subC (subB (subA (pyStrip s)))) = false :=
    hasPat_spins_false patB_sp (subC_spins _) hB2
  have hB4 : hasPat patB (subD (subC (subB (subA (pyStrip s))))) = false :=
    hasPat_subD_false patB_wsr hB3
  have hB : hasPat patB (pyStrip (subD (subC (subB (subA (pyStrip s)))))) = false :=
    hasPat_pyStrip_false hB4
  have hC3 : hasPat patC (subC (subB (subA (pyStrip s)))) = false := hasPat_patC_subC _
  have hC4 : hasPat patC (subD (subC (subB (subA (pyStrip s))))) = false :=
    hasPat_subD_false patC_wsr hC3
  have hC : hasPat patC (pyStrip (subD (subC (subB (subA (pyStrip s)))))) = false :=
    hasPat_pyStrip_false hC4
  have hD4 : hasPat patD (subD (subC (subB (subA (pyStrip s))))) = false :=
    hasPat_patD_subDGo _ false
  have hD : hasPat patD (pyStrip (subD (subC (subB (subA (pyStrip s)))))) = false :=
    hasPat_pyStrip_false hD4
  rw [pyStrip_idem, subA_id hA, subB_id hB, subC_id hC, subD_id hD, pyStrip_idem]

end Banklytik

